import Mathlib

/-!
Verification of the task-orchestration core of the youtube-downloader repository:
the persistent JSON task store and runtime state tracker
(`src/lib/core/download_task_persistent_json_store.js`,
`src/lib/core/download_task_runtime_state_tracker.js`), the yt-dlp output parser
and download orchestration (`src/lib/core/youtube_video_downloader_service.js`),
and the transcription orchestration (`src/lib/core/video_transcription_service.js`).

JavaScript values are modelled by the inductive `JsValue`; JavaScript objects by
ordered association lists (`Obj`), with property assignment (`jsSet`) and object
spread (`jsMerge`) mirroring ECMAScript semantics on key order.  Strings are Lean
`String`s; the stream/parsing functions work on `List Char`.  Numbers are modelled
as exact rationals (the values arising in this code are integers and one-decimal
fractions, far below any double-precision rounding).  Clock reads
(`Date.now()`, `new Date().toISOString()`) are passed as explicit parameters.
Log-file appends (`fs.appendFileSync`) have no bearing on task records and are not
modelled.
-/

/-- A JavaScript runtime value as it occurs in this program: JSON-representable
data plus `undefined` (which arises from reading an absent property). -/
inductive JsValue where
  | vUndefined : JsValue
  | vNull : JsValue
  | vBool (b : Bool) : JsValue
  | vNum (q : ℚ) : JsValue
  | vStr (s : String) : JsValue
  | vArr (l : List JsValue) : JsValue
  | vObj (fields : List (String × JsValue)) : JsValue

/-- A JavaScript object: an ordered list of key/value pairs (insertion order,
as ECMAScript preserves it for string keys). -/
abbrev Obj := List (String × JsValue)

/-- Property read on an object, first matching key. Objects built by this
program have unique keys, so first-match equals ECMAScript lookup. -/
def jsLookup : Obj → String → Option JsValue
  | [], _ => none
  | (k, v) :: rest, key => if k = key then some v else jsLookup rest key

/-- ECMAScript property assignment `o[k] = v`: overwrite the existing key in
place (keeping its position) or append a new key at the end. -/
def jsSet : Obj → String → JsValue → Obj
  | [], key, v => [(key, v)]
  | (k, w) :: rest, key, v =>
    if k = key then (k, v) :: rest else (k, w) :: jsSet rest key v

/-- ECMAScript object spread `{...a, ...b}`: assign every property of `b`
onto a copy of `a`, in `b`'s key order. -/
def jsMerge (a b : Obj) : Obj :=
  b.foldl (fun acc kv => jsSet acc kv.1 kv.2) a

theorem jsLookup_jsSet_self (o : Obj) (k : String) (v : JsValue) :
    jsLookup (jsSet o k v) k = some v := by
  induction o with
  | nil => simp [jsSet, jsLookup]
  | cons hd tl ih =>
    obtain ⟨k0, v0⟩ := hd
    by_cases h : k0 = k
    · simp [jsSet, jsLookup, h]
    · simp [jsSet, jsLookup, h, ih]

theorem jsLookup_jsSet_ne (o : Obj) (k key : String) (v : JsValue) (h : key ≠ k) :
    jsLookup (jsSet o k v) key = jsLookup o key := by
  induction o with
  | nil =>
    simp only [jsSet, jsLookup]
    exact if_neg (fun hh => h hh.symm)
  | cons hd tl ih =>
    obtain ⟨k0, v0⟩ := hd
    by_cases h0 : k0 = k
    · subst h0
      simp only [jsSet, if_pos rfl, jsLookup]
      rw [if_neg (fun hh => h hh.symm), if_neg (fun hh => h hh.symm)]
    · simp only [jsSet, if_neg h0, jsLookup]
      by_cases h1 : k0 = key
      · rw [if_pos h1, if_pos h1]
      · rw [if_neg h1, if_neg h1, ih]

theorem jsMerge_nil (a : Obj) : jsMerge a [] = a := rfl

theorem jsMerge_cons (a : Obj) (k : String) (v : JsValue) (b : Obj) :
    jsMerge a ((k, v) :: b) = jsMerge (jsSet a k v) b := rfl

/-- Keys not mentioned by the merged-in object keep their value. -/
theorem jsLookup_jsMerge_of_notMem (a b : Obj) (key : String)
    (h : ∀ kv ∈ b, kv.1 ≠ key) :
    jsLookup (jsMerge a b) key = jsLookup a key := by
  induction b generalizing a with
  | nil => rfl
  | cons hd tl ih =>
    obtain ⟨k0, v0⟩ := hd
    rw [jsMerge_cons, ih _ (fun kv hkv => h kv (List.mem_cons_of_mem _ hkv)),
      jsLookup_jsSet_ne]
    exact fun hh => h (k0, v0) (List.mem_cons_self _ _) hh.symm

theorem jsLookup_eq_none_of_notMem (b : Obj) (key : String)
    (h : ∀ kv ∈ b, kv.1 ≠ key) : jsLookup b key = none := by
  induction b with
  | nil => rfl
  | cons hd tl ih =>
    obtain ⟨k0, v0⟩ := hd
    simp only [jsLookup]
    rw [if_neg (h (k0, v0) (List.mem_cons_self _ _)),
      ih (fun kv hkv => h kv (List.mem_cons_of_mem _ hkv))]

/-- For a merged-in object with distinct keys (every object literal in this
program), lookup prefers its value and falls back to the base object. -/
theorem jsLookup_jsMerge (a b : Obj) (key : String)
    (hb : (b.map Prod.fst).Nodup) :
    jsLookup (jsMerge a b) key =
      match jsLookup b key with
      | some v => some v
      | none => jsLookup a key := by
  induction b generalizing a with
  | nil => rfl
  | cons hd tl ih =>
    obtain ⟨k0, v0⟩ := hd
    simp only [List.map_cons, List.nodup_cons] at hb
    rw [jsMerge_cons, ih _ hb.2]
    by_cases h : k0 = key
    · subst h
      rw [jsLookup_eq_none_of_notMem tl k0
        (fun kv hkv hh => hb.1 (hh ▸ List.mem_map_of_mem Prod.fst hkv))]
      simp [jsLookup, jsLookup_jsSet_self]
    · simp only [jsLookup, if_neg h]
      cases jsLookup tl key with
      | some v => simp
      | none => simp [jsLookup_jsSet_ne _ _ _ _ (fun hh => h hh.symm)]

/-! ## JSON serialization effects

`persistTaskDatabaseToDisk` writes `JSON.stringify(db)`; reading back gives
`JSON.parse` of that text.  On the values of this model the composition is the
identity except that `undefined`-valued object properties are dropped and
`undefined` array elements become `null` (ECMAScript `JSON.stringify`). -/

mutual

/-- Effect of a `JSON.stringify`/`JSON.parse` round trip on a value. -/
def stripUndef : JsValue → JsValue
  | .vUndefined => .vNull
  | .vNull => .vNull
  | .vBool b => .vBool b
  | .vNum q => .vNum q
  | .vStr s => .vStr s
  | .vArr l => .vArr (stripUndefList l)
  | .vObj o => .vObj (stripUndefObj o)

/-- `stripUndef` on the elements of an array (`undefined` becomes `null`). -/
def stripUndefList : List JsValue → List JsValue
  | [] => []
  | v :: rest => stripUndef v :: stripUndefList rest

/-- `stripUndef` on the properties of an object (`undefined` properties are dropped). -/
def stripUndefObj : Obj → Obj
  | [] => []
  | (_, .vUndefined) :: rest => stripUndefObj rest
  | (k, v) :: rest => (k, stripUndef v) :: stripUndefObj rest

end

/-- A property whose first occurrence is a non-`undefined` value survives the
serialization round trip (entries before it are other keys or dropped). -/
theorem jsLookup_stripUndefObj (o : Obj) (key : String) (v : JsValue)
    (hv : jsLookup o key = some v) (hu : v ≠ .vUndefined) :
    jsLookup (stripUndefObj o) key = some (stripUndef v) := by
  induction o with
  | nil => exact absurd hv (by simp [jsLookup])
  | cons hd tl ih =>
    obtain ⟨k0, v0⟩ := hd
    by_cases h0 : k0 = key
    · subst h0
      have hv2 : v0 = v := by simpa [jsLookup] using hv
      subst hv2
      cases v0 with
      | vUndefined => exact absurd rfl hu
      | vNull => simp [stripUndefObj, jsLookup]
      | vBool b => simp [stripUndefObj, jsLookup]
      | vNum q => simp [stripUndefObj, jsLookup]
      | vStr s => simp [stripUndefObj, jsLookup]
      | vArr l => simp [stripUndefObj, jsLookup]
      | vObj f => simp [stripUndefObj, jsLookup]
    · simp only [jsLookup, if_neg h0] at hv
      cases v0 with
      | vUndefined => simpa [stripUndefObj] using ih hv
      | vNull => simpa [stripUndefObj, jsLookup, if_neg h0] using ih hv
      | vBool b => simpa [stripUndefObj, jsLookup, if_neg h0] using ih hv
      | vNum q => simpa [stripUndefObj, jsLookup, if_neg h0] using ih hv
      | vStr s => simpa [stripUndefObj, jsLookup, if_neg h0] using ih hv
      | vArr l => simpa [stripUndefObj, jsLookup, if_neg h0] using ih hv
      | vObj f => simpa [stripUndefObj, jsLookup, if_neg h0] using ih hv

/-! ## PersistentTaskStore (`download_task_persistent_json_store.js`)

The backing file is modelled by what it holds: `absent` (no file),
`invalid` (contents that `JSON.parse` rejects), or `json j` (valid JSON text
parsing to `j`; `JSON.parse` results have unique object keys).  The module-level
`cachedDatabaseContents` variable is the `cache` component. -/

/-- State of the backing `tasks.json` file. -/
inductive FileState where
  | absent : FileState
  | invalid : FileState
  | json (j : JsValue) : FileState

/-- The store's module state: the lazy in-memory cache plus the backing file. -/
structure StoreState where
  cache : Option Obj
  file : FileState

/-- `EMPTY_TASK_DATABASE_STRUCTURE` / the fresh `{ tasks: [] }` literals. -/
def emptyDatabaseObj : Obj := [("tasks", .vArr [])]

/-- `{...arr}`: spreading an array into an object literal yields index keys. -/
def arraySpreadObj (l : List JsValue) : Obj :=
  l.enum.map (fun p => (toString p.1, p.2))

/-- The `JSON.parse` result handling of `loadTaskDatabaseFromDisk`
(lines 70-77): falsy or non-object values are replaced by a fresh empty
database; an object (or array) without a `tasks` array gets `tasks: []`
spliced in via `{...parsedContents, tasks: []}`; otherwise the parsed
object is used as is. -/
def parsedToDatabase (j : JsValue) : Obj :=
  match j with
  | .vObj o =>
    match jsLookup o "tasks" with
    | some (.vArr _) => o
    | _ => jsMerge o [("tasks", .vArr [])]
  | .vArr l => jsMerge (arraySpreadObj l) [("tasks", .vArr [])]
  | _ => emptyDatabaseObj

/-- `loadTaskDatabaseFromDisk`: return the cache if loaded; otherwise read the
file — creating it with the empty structure when absent — and cache the
(self-healed) parse result.  A malformed file is treated as an empty database
without rewriting the file. -/
def loadTaskDatabaseFromDisk (s : StoreState) : StoreState × Obj :=
  match s.cache with
  | some db => (s, db)
  | none =>
    match s.file with
    | .absent =>
      (⟨some emptyDatabaseObj, .json (.vObj emptyDatabaseObj)⟩, emptyDatabaseObj)
    | .invalid => (⟨some emptyDatabaseObj, .invalid⟩, emptyDatabaseObj)
    | .json j =>
      let db := parsedToDatabase j
      (⟨some db, .json j⟩, db)

/-- `persistTaskDatabaseToDisk`: set the cache and synchronously rewrite the
whole file with `JSON.stringify(databaseContents)`. -/
def persistTaskDatabaseToDisk (_s : StoreState) (db : Obj) : StoreState :=
  ⟨some db, .json (stripUndef (.vObj db))⟩

/-- The `tasks` array of a loaded database.  Every branch of
`loadTaskDatabaseFromDisk` guarantees the key holds an array, so the default
is unreachable on loaded databases. -/
def tasksOf (db : Obj) : List JsValue :=
  match jsLookup db "tasks" with
  | some (.vArr l) => l
  | _ => []

/-- `retrieveAllTaskRecords`: load and return `database.tasks.slice()`. -/
def retrieveAllTaskRecords (s : StoreState) : StoreState × List JsValue :=
  let p := loadTaskDatabaseFromDisk s
  (p.1, tasksOf p.2)

/-- The `(task) => task.id === taskId` callback of `findTaskRecordById` and
`updateExistingTaskRecord`.  Records in the store are always objects. -/
def recordHasId (v : JsValue) (taskId : String) : Bool :=
  match v with
  | .vObj o =>
    match jsLookup o "id" with
    | some (.vStr s) => s == taskId
    | _ => false
  | _ => false

/-- `findTaskRecordById`: load, then `tasks.find(...) || null`. -/
def findTaskRecordById (s : StoreState) (taskId : String) :
    StoreState × Option JsValue :=
  let p := loadTaskDatabaseFromDisk s
  (p.1, (tasksOf p.2).find? (recordHasId · taskId))

/-- `insertNewTaskRecord`: load, `database.tasks.push(taskRecord)`, persist,
return the record. -/
def insertNewTaskRecord (s : StoreState) (r : JsValue) : StoreState × JsValue :=
  let p := loadTaskDatabaseFromDisk s
  let db2 := jsSet p.2 "tasks" (.vArr (tasksOf p.2 ++ [r]))
  (persistTaskDatabaseToDisk p.1 db2, r)

/-- The record produced by `updateExistingTaskRecord` for the matched record:
`{...database.tasks[taskIndex], ...patchFields, updated_at: getCurrentIsoTimestamp()}`. -/
def mkUpdatedRecord (old : Obj) (patch : Obj) (nowIso : String) : Obj :=
  jsSet (jsMerge old patch) "updated_at" (.vStr nowIso)

/-- `findIndex` + in-place replacement of `updateExistingTaskRecord`, acting on
the tasks array: replace the first record whose `id` matches, returning the new
array and the updated record. -/
def updateFirstMatching (tasks : List JsValue) (taskId : String) (patch : Obj)
    (nowIso : String) : Option (List JsValue × Obj) :=
  match tasks with
  | [] => none
  | t :: rest =>
    if recordHasId t taskId then
      let updated :=
        mkUpdatedRecord (match t with | .vObj o => o | _ => []) patch nowIso
      some ((.vObj updated) :: rest, updated)
    else
      match updateFirstMatching rest taskId patch nowIso with
      | none => none
      | some (rest2, u) => some (t :: rest2, u)

/-- `updateExistingTaskRecord`: load, find the record by id (returning `null`
and persisting nothing when absent), shallow-merge the patch, stamp
`updated_at`, store it back and persist. -/
def updateExistingTaskRecord (s : StoreState) (taskId : String) (patch : Obj)
    (nowIso : String) : StoreState × Option Obj :=
  let p := loadTaskDatabaseFromDisk s
  match updateFirstMatching (tasksOf p.2) taskId patch nowIso with
  | none => (p.1, none)
  | some (tasks2, u) =>
    (persistTaskDatabaseToDisk p.1 (jsSet p.2 "tasks" (.vArr tasks2)), some u)

/-! ## RuntimeStateRegistry (`download_task_runtime_state_tracker.js`)

`ACTIVE_TASK_RUNTIME_STATES` is a `Map`; modelled as an ordered association
list with `Map.prototype.set/get/delete` semantics. -/

/-- The registry: task id → runtime state object. -/
abbrev Registry := List (String × Obj)

/-- `Map.prototype.get(taskId) || null`; runtime states are objects, hence
always truthy. -/
def registryGet : Registry → String → Option Obj
  | [], _ => none
  | (k, v) :: rest, key => if k = key then some v else registryGet rest key

/-- `Map.prototype.set`: update the existing entry in place or append. -/
def registrySet : Registry → String → Obj → Registry
  | [], key, v => [(key, v)]
  | (k, w) :: rest, key, v =>
    if k = key then (k, v) :: rest else (k, w) :: registrySet rest key v

/-- `registerActiveTaskRuntimeState`: set and return the state. -/
def registerActiveTaskRuntimeState (m : Registry) (taskId : String)
    (runtimeState : Obj) : Registry × Obj :=
  (registrySet m taskId runtimeState, runtimeState)

/-- `getActiveTaskRuntimeState`. -/
def getActiveTaskRuntimeState (m : Registry) (taskId : String) : Option Obj :=
  registryGet m taskId

/-- `updateActiveTaskRuntimeState`: `null` when absent, otherwise replace the
entry by `{...currentState, ...patchFields}` and return it. -/
def updateActiveTaskRuntimeState (m : Registry) (taskId : String)
    (patchFields : Obj) : Registry × Option Obj :=
  match registryGet m taskId with
  | none => (m, none)
  | some cur =>
    let updated := jsMerge cur patchFields
    (registrySet m taskId updated, some updated)

/-- `removeActiveTaskRuntimeState`: `Map.prototype.delete`. -/
def removeActiveTaskRuntimeState (m : Registry) (taskId : String) : Registry :=
  m.filter (fun kv => !(kv.1 == taskId))

/-! ## OutputStreamParser, download kind
(`parseYtDlpProgressOutputLine`, `youtube_video_downloader_service.js` 46-89)

The regular expressions of the source are embedded as executable matchers with
ECMAScript semantics: leftmost match, greedy quantifiers with backtracking, and
`\b` holding between a word character (`[A-Za-z0-9_]`) and a non-word character
or string edge.  Whitespace (`\s`, `trim`) is modelled by the ASCII whitespace
characters (the only ones occurring in tool output). -/

/-- ECMAScript `\w`. -/
def isWordChar (c : Char) : Bool := c.isAlphanum || c == '_'

/-- ASCII subset of ECMAScript `\s` (and of the characters `trim` removes). -/
def isJsWhitespace (c : Char) : Bool :=
  c == ' ' || c == '\t' || c == '\n' || c == '\r' ||
    c == Char.ofNat 11 || c == Char.ofNat 12

/-- `String.prototype.trim`. -/
def jsTrim (l : List Char) : List Char :=
  ((l.dropWhile isJsWhitespace).reverse.dropWhile isJsWhitespace).reverse

/-- Literal-text match at the head of the input. -/
def startsWithL : List Char → List Char → Bool
  | _, [] => true
  | [], _ :: _ => false
  | c :: cs, p :: ps => c == p && startsWithL cs ps

/-- `String.prototype.includes`. -/
def containsSub : List Char → List Char → Bool
  | [], pat => startsWithL [] pat
  | c :: rest, pat => startsWithL (c :: rest) pat || containsSub rest pat

/-- Case-insensitive (ASCII) character comparison, for `/i` patterns. -/
def ciEqChar (c d : Char) : Bool := c.toLower == d.toLower

/-- Case-insensitive literal-text match at the head of the input. -/
def ciStartsWithL : List Char → List Char → Bool
  | _, [] => true
  | [], _ :: _ => false
  | c :: cs, p :: ps => ciEqChar c p && ciStartsWithL cs ps

/-- The capture of `Destination:\s+(.+)$` when matched at the head of the
input: after the literal, the greedy whitespace run must be non-empty and
(backtracking) leave at least one character, none of which may be a line
terminator — ECMAScript `.` matches neither `\n` nor `\r` — and `$` is
end-of-string.  (As with `\s`, the Unicode line separators U+2028/U+2029 do
not occur in tool output and are outside the model.) -/
def destMatchAt (s : List Char) : Option (List Char) :=
  if startsWithL s "Destination:".data then
    let rest := s.drop 12
    let ws := rest.takeWhile isJsWhitespace
    if ws.isEmpty then none
    else
      let tl := rest.drop ws.length
      if !tl.isEmpty then
        if tl.all (fun c => !(c == '\n') && !(c == '\r')) then some tl
        else none
      else if ws.length ≥ 2 ∧ ws.getLast! ≠ '\n' ∧ ws.getLast! ≠ '\r' then
        some [ws.getLast!]
      else none
  else none

/-- Leftmost match of `/Destination:\s+(.+)$/`, returning the capture. -/
def findDestinationCapture : List Char → Option (List Char)
  | [] => none
  | c :: rest =>
    match destMatchAt (c :: rest) with
    | some cap => some cap
    | none => findDestinationCapture rest

/-- `%` followed by a word boundary: as `%` is a non-word character, the next
character must exist and be a word character. -/
def pctTail : List Char → Bool
  | '%' :: c :: _ => isWordChar c
  | _ => false

/-- The capture of `(\d+(?:\.\d+)?)%\b` matched at the head of the input
(the leading `\b` is checked by the scanner); the greedy optional fraction
is tried first, then dropped. -/
def pctMatchAt (s : List Char) : Option (List Char) :=
  let d1 := s.takeWhile Char.isDigit
  if d1.isEmpty then none
  else
    let r1 := s.drop d1.length
    match r1 with
    | '.' :: r2 =>
      let d2 := r2.takeWhile Char.isDigit
      if !d2.isEmpty && pctTail (r2.drop d2.length) then some (d1 ++ '.' :: d2)
      else none
    | _ => if pctTail r1 then some d1 else none

/-- Leftmost match of `/\b(\d+(?:\.\d+)?)%\b/`, returning the capture.
`prev` is the character before the current position (for `\b`). -/
def findPctCapture : Option Char → List Char → Option (List Char)
  | _, [] => none
  | prev, c :: rest =>
    let boundaryOk := match prev with | none => true | some p => !isWordChar p
    match if boundaryOk then pctMatchAt (c :: rest) else none with
    | some cap => some cap
    | none => findPctCapture (some c) rest

/-- Numeric value of a captured decimal numeral (`Number(...)`). -/
def digitsToNat (l : List Char) : ℕ :=
  l.foldl (fun a c => a * 10 + (c.toNat - 48)) 0

/-- `Number("ddd.ddd")` as an exact rational. -/
def decimalToRat (cap : List Char) : ℚ :=
  let ip := cap.takeWhile Char.isDigit
  match cap.drop ip.length with
  | '.' :: fr => (digitsToNat ip : ℚ) + (digitsToNat fr : ℚ) / ((10 : ℚ) ^ fr.length)
  | _ => (digitsToNat ip : ℚ)

/-- `Math.round`: round half toward positive infinity. -/
def jsMathRound (q : ℚ) : ℤ := ⌊q + 1/2⌋

/-- Word-boundary test between the last character of a taken prefix (a word
character in all uses) and the character that follows it, `none` at the end of
the string. -/
def boundaryAfterWord : Option Char → Bool
  | none => true
  | some c => !isWordChar c

/-- The capture of `([^\s]+\/s)\b` inside the non-whitespace run `r`: greedy
backtracking picks the longest prefix of `r` that ends in `/s`, has a
non-empty head part, and is followed by a word boundary. -/
def speedCapInRun (r : List Char) : Option (List Char) :=
  (List.range (r.length + 1)).reverse.findSome? (fun j =>
    if 3 ≤ j ∧ ((r.take j).reverse.take 2 = ['s', '/']) ∧
        boundaryAfterWord (r.get? j) = true then
      some (r.take j)
    else none)

/-- Match of `at\s+([^\s]+\/s)\b` at the head of the input. -/
def speedMatchAt (s : List Char) : Option (List Char) :=
  if startsWithL s "at".data then
    let rest := s.drop 2
    let ws := rest.takeWhile isJsWhitespace
    if ws.isEmpty then none
    else speedCapInRun ((rest.drop ws.length).takeWhile (fun c => !isJsWhitespace c))
  else none

/-- Leftmost match of `/\bat\s+([^\s]+\/s)\b/`, returning the capture. -/
def findSpeedCapture : Option Char → List Char → Option (List Char)
  | _, [] => none
  | prev, c :: rest =>
    let boundaryOk := match prev with | none => true | some p => !isWordChar p
    match if boundaryOk then speedMatchAt (c :: rest) else none with
    | some cap => some cap
    | none => findSpeedCapture (some c) rest

/-- Is the optional next character a word character?  (`none`, the string
edge, counts as non-word for `\b`.) -/
def wordOpt : Option Char → Bool
  | none => false
  | some c => isWordChar c

/-- The capture of `([0-9:]+|Unknown)\b` at the head of `tl` (after `ETA\s+`):
the first alternative greedily takes the `[0-9:]` run and backtracks to the
longest non-empty prefix followed by a word boundary — the boundary holds when
exactly one of the prefix's last character (a digit is a word character, `:`
is not) and the following character is a word character; failing that, a
case-insensitive `Unknown` followed by a word boundary. -/
def etaCapAt (tl : List Char) : Option (List Char) :=
  let run := tl.takeWhile (fun c => c.isDigit || c == ':')
  match (List.range (run.length + 1)).reverse.findSome? (fun j =>
    if 1 ≤ j ∧
        (((run.take j).getLast?.elim false isWordChar) != wordOpt (tl.get? j))
          = true then
      some (run.take j)
    else none) with
  | some cap => some cap
  | none =>
    if ciStartsWithL tl "unknown".data ∧ boundaryAfterWord (tl.get? 7) = true then
      some (tl.take 7)
    else none

/-- Match of `ETA\s+([0-9:]+|Unknown)` (case-insensitive) at the head. -/
def etaMatchAt (s : List Char) : Option (List Char) :=
  if ciStartsWithL s "eta".data then
    let rest := s.drop 3
    let ws := rest.takeWhile isJsWhitespace
    if ws.isEmpty then none
    else etaCapAt (rest.drop ws.length)
  else none

/-- Leftmost match of `/\bETA\s+([0-9:]+|Unknown)\b/i`, returning the capture. -/
def findEtaCapture : Option Char → List Char → Option (List Char)
  | _, [] => none
  | prev, c :: rest =>
    let boundaryOk := match prev with | none => true | some p => !isWordChar p
    match if boundaryOk then etaMatchAt (c :: rest) else none with
    | some cap => some cap
    | none => findEtaCapture (some c) rest

/-- `trimmedLine.replace(/^ERROR:\s*/i, "")`. -/
def stripErrorHead (t : List Char) : List Char :=
  if ciStartsWithL t "error:".data then (t.drop 6).dropWhile isJsWhitespace else t

/-- `path.basename` (POSIX): drop trailing separators, then keep the part
after the last separator. -/
def pathBasename (p : List Char) : List Char :=
  let tr := (p.reverse.dropWhile (· == '/')).reverse
  (tr.reverse.takeWhile (fun c => !(c == '/'))).reverse

/-! `parseYtDlpProgressOutputLine` (`youtube_video_downloader_service.js`
46-89) builds a progress patch by a sequence of conditional property
assignments on `{ last_line: trimmedLine }`; each statement group of the
source is one stage below. -/

/-- Lines 52-57: destination-file announcement. -/
def destStage (t : List Char) (p : Obj) : Obj :=
  match findDestinationCapture t with
  | some cap =>
    let d := jsTrim cap
    jsSet (jsSet p "file_path" (.vStr (String.mk d))) "file_name"
      (.vStr (String.mk (pathBasename d)))
  | none => p

/-- Lines 59-62: already-downloaded sentinel. -/
def sentinelStage (t : List Char) (p : Obj) : Obj :=
  if containsSub t "has already been downloaded".data then
    jsSet (jsSet p "status" (.vStr "completed")) "percentage" (.vNum 100)
  else p

/-- Lines 64-71: `[download]`-prefixed percentage token, clamped to 100 and
rounded to one decimal place.  (`Number.isFinite` holds for every parsed
numeral in the exact-rational model.) -/
def pctStage (t : List Char) (p : Obj) : Obj :=
  match findPctCapture none t with
  | some cap =>
    if startsWithL t "[download]".data then
      let parsedPercent := min 100 (decimalToRat cap)
      jsSet (jsSet p "status" (.vStr "downloading")) "percentage"
        (.vNum ((jsMathRound (parsedPercent * 10) : ℚ) / 10))
    else p
  | none => p

/-- Lines 73-76: transfer-rate token. -/
def speedStage (t : List Char) (p : Obj) : Obj :=
  match findSpeedCapture none t with
  | some cap => jsSet p "speed" (.vStr (String.mk cap))
  | none => p

/-- Lines 78-81: ETA token. -/
def etaStage (t : List Char) (p : Obj) : Obj :=
  match findEtaCapture none t with
  | some cap => jsSet p "eta" (.vStr (String.mk cap))
  | none => p

/-- Lines 83-86: error-prefixed line. -/
def errorStage (t : List Char) (p : Obj) : Obj :=
  if startsWithL t "ERROR:".data || containsSub t "Error:".data then
    jsSet (jsSet p "status" (.vStr "failed")) "error"
      (.vStr (String.mk (stripErrorHead t)))
  else p

/-- `parseYtDlpProgressOutputLine`: `null` for a blank line, otherwise the
patch produced by the assignment stages in source order. -/
def parseYtDlpProgressOutputLine (rawLine : String) : Option Obj :=
  let t := jsTrim rawLine.data
  if t.isEmpty then none
  else
    some (errorStage t (etaStage t (speedStage t (pctStage t
      (sentinelStage t (destStage t [("last_line", .vStr (String.mk t))]))))))

/-- Behaviour of the embedded matchers on representative lines, matching the
ECMAScript regular expressions of the source (note that `/\b(\d+(?:\.\d+)?)%\b/`
requires a word character after the `%`, so ordinary yt-dlp progress lines do
not match it). -/
theorem regex_matcher_behaviour :
    findPctCapture none "[download]  50.0% of 10MiB at 5.2MiB/s ETA 00:15".data
        = none ∧
      findPctCapture none "[download] 100%done".data = some "100".data ∧
      findPctCapture none "abc 12.5%z".data = some "12.5".data ∧
      findPctCapture none "12.%".data = none ∧
      findSpeedCapture none
          "[download]  50.0% of 10MiB at 5.20MiB/s ETA 00:15".data =
        some "5.20MiB/s".data ∧
      findSpeedCapture none "at 3MiB/sec more".data = none ∧
      findEtaCapture none "ETA 00:15 left".data = some "00:15".data ∧
      findEtaCapture none "eta Unknown".data = some "Unknown".data ∧
      findEtaCapture none "ETA 12:".data = some "12".data ∧
      findEtaCapture none "ETA ::x".data = some "::".data ∧
      findEtaCapture none "ETA 10:30abc".data = some "10:".data ∧
      findEtaCapture none "ETA ::".data = none ∧
      findEtaCapture none "ETA 10abc".data = none ∧
      findEtaCapture none "BETA 10".data = none ∧
      findDestinationCapture "[download] Destination: /tmp/a b.mp4".data =
        some "/tmp/a b.mp4".data ∧
      findDestinationCapture "Destination:".data = none ∧
      findDestinationCapture "Destination: a\rb".data = none ∧
      pathBasename "/tmp/a b.mp4".data = "a b.mp4".data ∧
      jsTrim "  hi  ".data = "hi".data := by
  decide

/-! ## Line buffering (`attachStreamLineHandler` and the stderr data handler)

Both services accumulate raw chunks in a buffer, split on `/\r?\n/`, keep the
unterminated tail in the buffer and hand every completed line on. -/

/-- ECMAScript `String.prototype.split(/\r?\n/)` on a character list. -/
def splitRN : List Char → List (List Char)
  | [] => [[]]
  | '\n' :: rest => [] :: splitRN rest
  | '\r' :: '\n' :: rest => [] :: splitRN rest
  | c :: rest =>
    match splitRN rest with
    | [] => [[c]]
    | l :: ls => (c :: l) :: ls

/-- Head-step of `splitRN` in the non-separator case. -/
theorem splitRN_cons_default (c : Char) (x : List Char)
    (hc : ¬c = '\n') (hcr : ∀ rest, c = '\r' → x = '\n' :: rest → False) :
    splitRN (c :: x) =
      match splitRN x with
      | [] => [[c]]
      | l :: ls => (c :: l) :: ls := by
  rw [splitRN.eq_def]
  split
  next heq => cases heq
  next rest heq =>
    injection heq with e1 e2
    exact absurd e1 hc
  next rest heq =>
    injection heq with e1 e2
    exact absurd e1 (fun h => hcr rest h e2)
  next c2 rest hh1 hh2 heq =>
    injection heq with e1 e2
    subst e1; subst e2; rfl

theorem splitRN_ne_nil (s : List Char) : splitRN s ≠ [] := by
  induction s using splitRN.induct with
  | case1 => simp [splitRN]
  | case2 rest ih => simp [splitRN]
  | case3 rest ih => simp [splitRN]
  | case4 c rest h1 h2 ih ih2 =>
    rw [splitRN_cons_default c rest h1 (fun r hc hr => h2 r hc hr)]
    rw [ih]
    simp
  | case5 c rest h1 h2 l ls hl ih2 =>
    rw [splitRN_cons_default c rest h1 (fun r hc hr => h2 r hc hr), hl]
    simp

/-- The first token of a split starts with the first character when it is
non-empty. -/
theorem splitRN_head_of_ne_nil (r1 : Char) (rest2 l : List Char)
    (ls : List (List Char)) (h : splitRN (r1 :: rest2) = l :: ls)
    (hl : l ≠ []) : ∃ l2, l = r1 :: l2 := by
  by_cases hc : r1 = '\n'
  · subst hc
    simp only [splitRN] at h
    exact absurd (List.cons.injEq _ _ _ _ ▸ h).1.symm hl
  · by_cases hcr : r1 = '\r' ∧ ∃ r3, rest2 = '\n' :: r3
    · obtain ⟨h1, r3, h3⟩ := hcr
      subst h1; subst h3
      simp only [splitRN] at h
      exact absurd (List.cons.injEq _ _ _ _ ▸ h).1.symm hl
    · rw [splitRN_cons_default r1 rest2 hc
        (fun r hc2 hr => hcr ⟨hc2, r, hr⟩)] at h
      rcases hS : splitRN rest2 with _ | ⟨t, ts⟩
      · exact absurd hS (splitRN_ne_nil rest2)
      · rw [hS] at h
        exact ⟨t, ((List.cons.injEq _ _ _ _ ▸ h).1.symm)⟩

/-- For a non-empty list the default of `getLastD` is irrelevant. -/
theorem getLastD_irrel (m : List Char) (ms : List (List Char))
    (d1 d2 : List Char) :
    (m :: ms).getLastD d1 = (m :: ms).getLastD d2 := by
  cases ms with
  | nil => rfl
  | cons m2 ms2 => simp only [List.getLastD_cons]

/-- A split of a non-empty string is never the single empty token. -/
theorem splitRN_cons_ne_single_nil (r1 : Char) (rest2 : List Char) :
    splitRN (r1 :: rest2) = [[]] → False := by
  intro h
  by_cases hc : r1 = '\n'
  · subst hc
    simp only [splitRN] at h
    exact splitRN_ne_nil rest2 (List.cons.injEq _ _ _ _ ▸ h).2
  · by_cases hcr : r1 = '\r' ∧ ∃ r3, rest2 = '\n' :: r3
    · obtain ⟨e1, r3, e3⟩ := hcr
      subst e1; subst e3
      simp only [splitRN] at h
      exact splitRN_ne_nil r3 (List.cons.injEq _ _ _ _ ▸ h).2
    · rw [splitRN_cons_default r1 rest2 hc (fun r a3 b3 => hcr ⟨a3, r, b3⟩)] at h
      rcases hS : splitRN rest2 with _ | ⟨t, ts⟩
      · exact splitRN_ne_nil rest2 hS
      · rw [hS] at h
        exact List.noConfusion (List.cons.injEq _ _ _ _ ▸ h).1

/-- Splitting a concatenation: the completed tokens of `a`, then the split of
`a`'s leftover token joined with `b`.  This is the chunk-boundary-invariance
core of the line-buffered stream readers. -/
theorem splitRN_append (a b : List Char) :
    splitRN (a ++ b) =
      (splitRN a).dropLast ++ splitRN ((splitRN a).getLastD [] ++ b) := by
  induction a using splitRN.induct with
  | case1 => simp [splitRN]
  | case2 rest ih =>
    rcases hS : splitRN rest with _ | ⟨s0, ss⟩
    · exact absurd hS (splitRN_ne_nil rest)
    · rw [hS] at ih
      simp only [List.getLastD_cons] at ih
      simp only [List.cons_append, List.append_eq, splitRN, hS,
        List.dropLast_cons₂, List.getLastD_cons]
      rw [ih]
  | case3 rest ih =>
    rcases hS : splitRN rest with _ | ⟨s0, ss⟩
    · exact absurd hS (splitRN_ne_nil rest)
    · rw [hS] at ih
      simp only [List.getLastD_cons] at ih
      simp only [List.cons_append, List.append_eq, splitRN, hS,
        List.dropLast_cons₂, List.getLastD_cons]
      rw [ih]
  | case4 c rest h1 h2 hnil ih =>
    exact absurd hnil (splitRN_ne_nil rest)
  | case5 c rest h1 h2 l ls hl ih =>
    rw [hl] at ih
    have hstep := splitRN_cons_default c rest h1 (fun r hc hr => h2 r hc hr)
    rw [hl] at hstep
    cases rest with
    | nil =>
      have hll : ([] : List Char) :: ([] : List (List Char)) = l :: ls := by
        have : splitRN ([] : List Char) = [[]] := rfl
        rw [this] at hl
        exact hl
      obtain ⟨e1, e2⟩ := And.intro (List.cons.injEq _ _ _ _ ▸ hll).1
        (List.cons.injEq _ _ _ _ ▸ hll).2
      subst e1; subst e2
      simp only [List.nil_append, List.cons_append] at hstep ⊢
      rw [hstep]
      simp [splitRN, List.getLastD]
    | cons r1 rest2 =>
      have hr1 : c = '\r' → r1 ≠ '\n' := fun hc hn => h2 rest2 hc (by rw [hn])
      have hstepL := splitRN_cons_default c ((r1 :: rest2) ++ b) h1
        (fun r hc hr => hr1 hc (by
          have := congrArg List.head? hr
          simpa using this))
      cases ls with
      | nil =>
        have hlne : l ≠ [] := by
          intro h0
          rw [h0] at hl
          exact splitRN_cons_ne_single_nil r1 rest2 hl
        obtain ⟨l2, hl2⟩ := splitRN_head_of_ne_nil r1 rest2 l [] hl hlne
        have hstepR := splitRN_cons_default c (l ++ b) h1
          (fun r hc hr => by
            rw [hl2] at hr
            exact hr1 hc (by
              have := congrArg List.head? hr
              simpa using this))
        simp only [List.cons_append] at hstepL ih ⊢
        rw [hstepL]
        simp only [List.dropLast_single, List.getLastD_cons, List.getLastD_nil,
          List.nil_append] at ih
        rw [ih, hstep]
        simp only [List.dropLast_single, List.getLastD_cons, List.getLastD_nil,
          List.nil_append, List.cons_append]
        rw [hstepR]
      | cons m ms =>
        simp only [List.cons_append] at hstepL ih ⊢
        rw [hstepL, ih, hstep]
        simp only [List.dropLast_cons₂, List.getLastD_cons, List.cons_append]

/-- A token of a split contains no newline, hence splits to itself. -/
theorem splitRN_eq_single (x : List Char) (h : '\n' ∉ x) : splitRN x = [x] := by
  induction x with
  | nil => rfl
  | cons c rest ih =>
    have hc : ¬c = '\n' := fun e => h (e ▸ List.mem_cons_self c rest)
    rw [splitRN_cons_default c rest hc
      (fun r hcr hr => h (by rw [hr]; exact List.mem_cons_of_mem _ (List.mem_cons_self _ _)))]
    rw [ih (fun hm => h (List.mem_cons_of_mem _ hm))]

/-- The leftover token of a split never contains a newline. -/
theorem no_nl_in_leftover (s : List Char) : '\n' ∉ (splitRN s).getLastD [] := by
  induction s using splitRN.induct with
  | case1 => simp [splitRN]
  | case2 rest ih =>
    simp only [splitRN, List.getLastD_cons]
    exact ih
  | case3 rest ih =>
    simp only [splitRN, List.getLastD_cons]
    exact ih
  | case4 c rest h1 h2 hnil ih =>
    exact absurd hnil (splitRN_ne_nil rest)
  | case5 c rest h1 h2 l ls hl ih =>
    rw [hl] at ih
    have hstep := splitRN_cons_default c rest h1 (fun r hc hr => h2 r hc hr)
    rw [hl] at hstep
    rw [hstep]
    cases ls with
    | nil =>
      simp only [List.getLastD_cons, List.getLastD_nil] at ih ⊢
      intro hm
      rcases List.mem_cons.mp hm with e | hm2
      · exact h1 e.symm
      · exact ih hm2
    | cons m ms =>
      simp only [List.getLastD_cons] at ih ⊢
      exact ih

/-- For a non-empty right part, `getLastD` of an append is `getLastD` of it. -/
theorem getLastD_append_right {α : Type _} (A X : List α) (d : α) (hX : X ≠ []) :
    (A ++ X).getLastD d = X.getLastD d := by
  induction A generalizing d with
  | nil => rfl
  | cons a A ih =>
    rcases X with _ | ⟨x, xs⟩
    · exact absurd rfl hX
    · simp only [List.cons_append, List.getLastD_cons]
      rw [ih a]
      simp only [List.getLastD_cons]

/-- For a non-empty right part, `dropLast` distributes over append. -/
theorem dropLast_append_right {α : Type _} (A X : List α) (hX : X ≠ []) :
    (A ++ X).dropLast = A ++ X.dropLast := by
  induction A with
  | nil => rfl
  | cons a A ih =>
    rcases hAX : A ++ X with _ | ⟨y, ys⟩
    · rcases X with _ | ⟨x, xs⟩
      · exact absurd rfl hX
      · simp at hAX
    · simp only [List.cons_append, hAX, List.dropLast_cons₂]
      rw [← hAX, ih]

/-- One `data` callback: append the chunk to the incomplete-line buffer, split
on `/\r?\n/`, pop the unterminated tail back into the buffer
(`completedLines.pop() || ""`), emit the completed lines in order. -/
def feedChunk (buf chunk : List Char) : List Char × List (List Char) :=
  ((splitRN (buf ++ chunk)).getLastD [], (splitRN (buf ++ chunk)).dropLast)

/-- Stream state after a sequence of `data` callbacks from an initially empty
buffer: the final buffer and all lines emitted, in order. -/
def feedChunks (chunks : List (List Char)) : List Char × List (List Char) :=
  chunks.foldl
    (fun st chunk => ((feedChunk st.1 chunk).1, st.2 ++ (feedChunk st.1 chunk).2))
    ([], [])

theorem feedChunks_go (chunks : List (List Char)) (buf : List Char)
    (acc : List (List Char)) (hbuf : splitRN buf = [buf]) :
    chunks.foldl
      (fun st chunk => ((feedChunk st.1 chunk).1, st.2 ++ (feedChunk st.1 chunk).2))
      (buf, acc) =
      ((splitRN (buf ++ chunks.flatten)).getLastD [],
        acc ++ (splitRN (buf ++ chunks.flatten)).dropLast) := by
  induction chunks generalizing buf acc with
  | nil => simp [hbuf]
  | cons ch chs ih =>
    simp only [List.foldl_cons, List.flatten_cons]
    have hbuf2 : splitRN ((feedChunk buf ch).1) = [(feedChunk buf ch).1] :=
      splitRN_eq_single _ (no_nl_in_leftover (buf ++ ch))
    rw [ih _ _ hbuf2]
    have hX := splitRN_ne_nil ((feedChunk buf ch).1 ++ chs.flatten)
    have hsplit : splitRN (buf ++ (ch ++ chs.flatten)) =
        (feedChunk buf ch).2 ++ splitRN ((feedChunk buf ch).1 ++ chs.flatten) := by
      rw [← List.append_assoc]
      exact splitRN_append (buf ++ ch) chs.flatten
    rw [hsplit, getLastD_append_right _ _ _ hX, dropLast_append_right _ _ hX,
      List.append_assoc]

/-- The lines a stream reader emits are exactly the split of the whole stream
content: no dependence on how the content was chunked. -/
theorem feedChunks_eq_join (chunks : List (List Char)) :
    feedChunks chunks =
      ((splitRN chunks.flatten).getLastD [], (splitRN chunks.flatten).dropLast) := by
  have := feedChunks_go chunks [] [] rfl
  simpa [feedChunks] using this

/-- The lines handed to `processOutputLine` by the download service's reader
(`attachStreamLineHandler`, lines 204-217): every completed line, then — from
the `end` handler — the trimmed leftover buffer when it is non-blank. -/
def downloadStreamLines (chunks : List (List Char)) : List (List Char) :=
  let r := feedChunks chunks
  r.2 ++ (if (jsTrim r.1).isEmpty then [] else [jsTrim r.1])

/-- The lines examined by the transcription service's stderr `data` handler
(`video_transcription_service.js` 139-175): only the completed lines — no
`end` handler is attached, so the leftover buffer is never examined. -/
def transcriptionStreamLines (chunks : List (List Char)) : List (List Char) :=
  (feedChunks chunks).2

/-! ## BatchedPersistenceWriter and download orchestration
(`startBackgroundVideoDownloadTask`, `youtube_video_downloader_service.js`) -/

/-- The closure state of the batched writer: `pendingProgressPatch` and
`lastDiskPersistTimestamp` (lines 183-184). -/
structure WriterState where
  pendingProgressPatch : Option Obj
  lastDiskPersistTimestamp : ℤ

/-- `persistProgressPatchToDisk` (lines 186-195): merge the patch into the
pending accumulator; write through to the store only when forced or when at
least 1000 ms have passed since the last write.  `now` is `Date.now()` and
`updIso` the store's `getCurrentIsoTimestamp()` for `updated_at`. -/
def persistProgressPatchToDisk (ws : WriterState) (s : StoreState)
    (taskId : String) (patch : Option Obj) (forceImmediately : Bool)
    (now : ℤ) (updIso : String) : WriterState × StoreState :=
  match patch with
  | none => (ws, s)
  | some p =>
    let pending := jsMerge (ws.pendingProgressPatch.getD []) p
    if !forceImmediately ∧ now - ws.lastDiskPersistTimestamp < 1000 then
      (⟨some pending, ws.lastDiskPersistTimestamp⟩, s)
    else
      (⟨none, now⟩, (updateExistingTaskRecord s taskId pending updIso).1)

/-- `processOutputLine` (lines 197-202): skip empty lines, parse, and apply any
patch through the batched writer without forcing. -/
def processOutputLine (ws : WriterState) (s : StoreState) (taskId : String)
    (line : String) (now : ℤ) (updIso : String) : WriterState × StoreState :=
  if line = "" then (ws, s)
  else
    persistProgressPatchToDisk ws s taskId (parseYtDlpProgressOutputLine line)
      false now updIso

/-- The completion patch built by the download `close` handler (lines
227-237): terminal status from the exit code (`null` exit codes count as
failure), `finished_at`, `exit_code`, and `percentage: 100` on success. -/
def downloadCompletionPatch (exitCode : Option ℤ) (finIso : String) : Obj :=
  let finalStatus : String := if exitCode = some 0 then "completed" else "failed"
  let base : Obj := [("status", .vStr finalStatus), ("finished_at", .vStr finIso),
    ("exit_code", match exitCode with | some c => .vNum (c : ℚ) | none => .vNull)]
  if exitCode = some 0 then base ++ [("percentage", .vNum 100)] else base

/-- The download `close` handler (lines 227-240): force-flush the completion
patch.  (`removeActiveTaskRuntimeState` acts on the registry, not the store.) -/
def downloadOnClose (ws : WriterState) (s : StoreState) (taskId : String)
    (exitCode : Option ℤ) (finIso : String) (now : ℤ) (updIso : String) :
    WriterState × StoreState :=
  persistProgressPatchToDisk ws s taskId
    (some (downloadCompletionPatch exitCode finIso)) true now updIso

/-- The download `error` handler (lines 222-225): force-flush
`{status: "failed", error}` — with no `finished_at`. -/
def downloadOnError (ws : WriterState) (s : StoreState) (taskId : String)
    (errMsg : String) (now : ℤ) (updIso : String) : WriterState × StoreState :=
  persistProgressPatchToDisk ws s taskId
    (some [("status", .vStr "failed"), ("error", .vStr errMsg)]) true now updIso

/-! ## Transcription orchestration (`video_transcription_service.js`) -/

/-- Property access `v[k]`, `undefined` when absent (payloads are objects). -/
def jsGetD (v : JsValue) (k : String) : JsValue :=
  match v with
  | .vObj o => (jsLookup o k).getD .vUndefined
  | _ => .vUndefined

/-- ECMAScript truthiness of the values in this model. -/
def jsTruthy : JsValue → Bool
  | .vUndefined => false
  | .vNull => false
  | .vBool b => b
  | .vNum q => !(q = 0)
  | .vStr s => !(s = "")
  | .vArr _ => true
  | .vObj _ => true

/-- Does `v[k]` strictly equal (`===`) the string `s`? -/
def fieldIsStr (v : JsValue) (k s : String) : Bool :=
  match jsGetD v k with
  | .vStr x => x == s
  | _ => false

/-- The patch built from one parsed stderr progress JSON object
(`video_transcription_service.js` 154-169).  `progressData.progress || 0` is
modelled for numeric (or absent/falsy) `progress` values — the only ones the
transcription script emits. -/
def transcriptionProgressPatch (progressData : JsValue) (nowIso : String)
    (transcriptOutputPath : String) : Obj :=
  let progressNum : ℚ :=
    match jsGetD progressData "progress" with
    | .vNum n => n
    | _ => 0
  let patch : Obj := [("last_progress", progressData),
    ("percentage", .vNum (jsMathRound (progressNum * 100) : ℚ))]
  if fieldIsStr progressData "status" "completed" then
    jsSet (jsSet (jsSet (jsSet (jsSet (jsSet patch
      "status" (.vStr "completed"))
      "percentage" (.vNum 100))
      "finished_at" (.vStr nowIso))
      "transcript_path" (if jsTruthy (jsGetD progressData "transcript_path") then
          jsGetD progressData "transcript_path" else .vStr transcriptOutputPath))
      "detected_language" (jsGetD progressData "language"))
      "elapsed_seconds" (jsGetD progressData "elapsed_seconds")
  else if fieldIsStr progressData "status" "error" then
    jsSet (jsSet patch "status" (.vStr "failed"))
      "error" (if jsTruthy (jsGetD progressData "error") then
          jsGetD progressData "error" else .vStr "Unknown transcription error")
  else patch

/-- The transcription `error` handler (lines 182-189): a direct store update
with `status: "failed"`, the message and `finished_at`. -/
def transcriptionOnError (s : StoreState) (taskId : String) (errMsg : String)
    (finIso : String) (updIso : String) : StoreState :=
  (updateExistingTaskRecord s taskId
    [("status", .vStr "failed"), ("error", .vStr errMsg),
      ("finished_at", .vStr finIso)] updIso).1

/-- The transcription `close` handler (lines 191-214): on exit 0 stamp
`finished_at` and, only if the updated record is not already `completed`, mark
it completed; on any other exit record failure with the exit code. -/
def transcriptionOnClose (s : StoreState) (taskId : String)
    (exitCode : Option ℤ) (finIso : String) (updIso1 updIso2 : String) :
    StoreState :=
  if exitCode = some 0 then
    let r := updateExistingTaskRecord s taskId
      [("finished_at", .vStr finIso)] updIso1
    match r.2 with
    | some currentTask =>
      if fieldIsStr (.vObj currentTask) "status" "completed" then r.1
      else
        (updateExistingTaskRecord r.1 taskId
          [("status", .vStr "completed"), ("percentage", .vNum 100)] updIso2).1
    | none => r.1
  else
    (updateExistingTaskRecord s taskId
      [("status", .vStr "failed"), ("finished_at", .vStr finIso),
        ("exit_code", match exitCode with
          | some c => .vNum (c : ℚ) | none => .vNull)] updIso1).1

/-! ## Stage and store lemmas -/

theorem lookup_destStage_ne (t : List Char) (p : Obj) (key : String)
    (h1 : key ≠ "file_path") (h2 : key ≠ "file_name") :
    jsLookup (destStage t p) key = jsLookup p key := by
  unfold destStage
  rcases findDestinationCapture t with _ | cap
  · rfl
  · dsimp only
    rw [jsLookup_jsSet_ne _ _ _ _ h2, jsLookup_jsSet_ne _ _ _ _ h1]

theorem lookup_sentinelStage_ne (t : List Char) (p : Obj) (key : String)
    (h1 : key ≠ "status") (h2 : key ≠ "percentage") :
    jsLookup (sentinelStage t p) key = jsLookup p key := by
  unfold sentinelStage
  by_cases hc : containsSub t "has already been downloaded".data
  · rw [if_pos hc, jsLookup_jsSet_ne _ _ _ _ h2, jsLookup_jsSet_ne _ _ _ _ h1]
  · rw [if_neg hc]

theorem lookup_pctStage_ne (t : List Char) (p : Obj) (key : String)
    (h1 : key ≠ "status") (h2 : key ≠ "percentage") :
    jsLookup (pctStage t p) key = jsLookup p key := by
  unfold pctStage
  rcases findPctCapture none t with _ | cap
  · rfl
  · dsimp only
    by_cases hd : startsWithL t "[download]".data = true
    · rw [if_pos hd, jsLookup_jsSet_ne _ _ _ _ h2, jsLookup_jsSet_ne _ _ _ _ h1]
    · rw [if_neg hd]

theorem lookup_speedStage_ne (t : List Char) (p : Obj) (key : String)
    (h1 : key ≠ "speed") :
    jsLookup (speedStage t p) key = jsLookup p key := by
  unfold speedStage
  rcases findSpeedCapture none t with _ | cap
  · rfl
  · dsimp only
    rw [jsLookup_jsSet_ne _ _ _ _ h1]

theorem lookup_etaStage_ne (t : List Char) (p : Obj) (key : String)
    (h1 : key ≠ "eta") :
    jsLookup (etaStage t p) key = jsLookup p key := by
  unfold etaStage
  rcases findEtaCapture none t with _ | cap
  · rfl
  · dsimp only
    rw [jsLookup_jsSet_ne _ _ _ _ h1]

theorem lookup_errorStage_ne (t : List Char) (p : Obj) (key : String)
    (h1 : key ≠ "status") (h2 : key ≠ "error") :
    jsLookup (errorStage t p) key = jsLookup p key := by
  unfold errorStage
  by_cases hc : (startsWithL t "ERROR:".data || containsSub t "Error:".data) = true
  · rw [if_pos hc, jsLookup_jsSet_ne _ _ _ _ h2, jsLookup_jsSet_ne _ _ _ _ h1]
  · rw [if_neg hc]

/-- `JsValue`s passing `recordHasId` are objects. -/
def objOf : JsValue → Obj
  | .vObj o => o
  | _ => []

theorem updateFirstMatching_of_find_none (tasks : List JsValue) (tid : String)
    (p : Obj) (ts : String) (h : tasks.find? (recordHasId · tid) = none) :
    updateFirstMatching tasks tid p ts = none := by
  induction tasks with
  | nil => rfl
  | cons t rest ih =>
    rcases hh : recordHasId t tid with _ | _
    · rw [List.find?_cons_of_neg _ (by simp [hh])] at h
      unfold updateFirstMatching
      rw [if_neg (by simp [hh]), ih h]
    · rw [List.find?_cons_of_pos _ (by simp [hh])] at h
      cases h

theorem updateFirstMatching_of_find_some (tasks : List JsValue) (tid : String)
    (p : Obj) (ts : String) (r : JsValue)
    (h : tasks.find? (recordHasId · tid) = some r) :
    ∃ tasks2, updateFirstMatching tasks tid p ts =
        some (tasks2, mkUpdatedRecord (objOf r) p ts) ∧
      (recordHasId (.vObj (mkUpdatedRecord (objOf r) p ts)) tid = true →
        tasks2.find? (recordHasId · tid) =
          some (.vObj (mkUpdatedRecord (objOf r) p ts))) := by
  induction tasks with
  | nil => cases h
  | cons t rest ih =>
    rcases hh : recordHasId t tid with _ | _
    · rw [List.find?_cons_of_neg _ (by simp [hh])] at h
      obtain ⟨tasks2, h1, h2⟩ := ih h
      refine ⟨t :: tasks2, ?_, ?_⟩
      · unfold updateFirstMatching
        rw [if_neg (by simp [hh]), h1]
      · intro hid
        rw [List.find?_cons_of_neg _ (by simp [hh]), h2 hid]
    · rw [List.find?_cons_of_pos _ (by simp [hh])] at h
      have ht : t = r := by injection h
      subst ht
      refine ⟨.vObj (mkUpdatedRecord (objOf t) p ts) :: rest, ?_, ?_⟩
      · unfold updateFirstMatching
        rw [if_pos (by simp [hh])]
        cases t with
        | vObj o => rfl
        | vUndefined => simp [recordHasId] at hh
        | vNull => simp [recordHasId] at hh
        | vBool b => simp [recordHasId] at hh
        | vNum q => simp [recordHasId] at hh
        | vStr s2 => simp [recordHasId] at hh
        | vArr l => simp [recordHasId] at hh
      · intro hid
        exact List.find?_cons_of_pos _ hid

/-- A loaded (warm) cache makes `loadTaskDatabaseFromDisk` the identity. -/
theorem load_of_cache (s : StoreState) (db : Obj) (h : s.cache = some db) :
    loadTaskDatabaseFromDisk s = (s, db) := by
  obtain ⟨c, f⟩ := s
  cases h
  rfl

theorem registryGet_set_self (m : Registry) (k : String) (v : Obj) :
    registryGet (registrySet m k v) k = some v := by
  induction m with
  | nil => simp [registrySet, registryGet]
  | cons hd tl ih =>
    obtain ⟨k0, v0⟩ := hd
    by_cases h : k0 = k
    · simp [registrySet, registryGet, h]
    · simp [registrySet, registryGet, h, ih]

theorem registryGet_set_ne (m : Registry) (k key : String) (v : Obj)
    (h : key ≠ k) : registryGet (registrySet m k v) key = registryGet m key := by
  induction m with
  | nil =>
    simp only [registrySet, registryGet]
    exact if_neg (fun hh => h hh.symm)
  | cons hd tl ih =>
    obtain ⟨k0, v0⟩ := hd
    by_cases h0 : k0 = k
    · subst h0
      simp only [registrySet, if_pos rfl, registryGet]
      rw [if_neg (fun hh => h hh.symm), if_neg (fun hh => h hh.symm)]
    · simp only [registrySet, if_neg h0, registryGet]
      by_cases h1 : k0 = key
      · rw [if_pos h1, if_pos h1]
      · rw [if_neg h1, if_neg h1, ih]

theorem registryGet_remove_self (m : Registry) (k : String) :
    registryGet (removeActiveTaskRuntimeState m k) k = none := by
  induction m with
  | nil => rfl
  | cons hd tl ih =>
    obtain ⟨k0, v0⟩ := hd
    by_cases h : k0 = k
    · simpa [removeActiveTaskRuntimeState, h] using ih
    · simpa [removeActiveTaskRuntimeState, registryGet, h] using ih

theorem registryGet_remove_ne (m : Registry) (k key : String) (h : key ≠ k) :
    registryGet (removeActiveTaskRuntimeState m k) key = registryGet m key := by
  induction m with
  | nil => rfl
  | cons hd tl ih =>
    obtain ⟨k0, v0⟩ := hd
    simp only [removeActiveTaskRuntimeState, List.filter_cons] at ih ⊢
    by_cases h0 : k0 = k
    · subst h0
      simp only [beq_self_eq_true, Bool.not_true, Bool.false_eq_true, if_false]
      rw [ih]
      simp only [registryGet]
      rw [if_neg (fun hh : k0 = key => h hh.symm)]
    · have hb : (!(k0 == k)) = true := by simp [h0]
      rw [hb]
      simp only [if_true, registryGet]
      by_cases h1 : k0 = key
      · rw [if_pos h1, if_pos h1]
      · rw [if_neg h1, if_neg h1, ih]

theorem remove_of_absent (m : Registry) (k : String)
    (h : registryGet m k = none) : removeActiveTaskRuntimeState m k = m := by
  induction m with
  | nil => rfl
  | cons hd tl ih =>
    obtain ⟨k0, v0⟩ := hd
    simp only [registryGet] at h
    by_cases h0 : k0 = k
    · rw [if_pos h0] at h
      cases h
    · rw [if_neg h0] at h
      simp only [removeActiveTaskRuntimeState, List.filter_cons]
      have : (!(k0 == k)) = true := by simp [h0]
      rw [this]
      simp only [if_true]
      rw [show (List.filter (fun kv => !(kv.1 == k)) tl) =
        removeActiveTaskRuntimeState tl k from rfl, ih h]

/-- Claim C10: for absent ids `Update` returns null and creates no entry;
`Get` after `Register` returns exactly the registered state; `Remove` deletes
the entry and is a no-op on absent ids; and no registry operation touches the
entry of a different id. -/
theorem runtimeStateRegistry_semantics :
    (∀ (m : Registry) (id : String) (patch : Obj),
      registryGet m id = none →
        updateActiveTaskRuntimeState m id patch = (m, none)) ∧
    (∀ (m : Registry) (id : String) (st : Obj),
      getActiveTaskRuntimeState (registerActiveTaskRuntimeState m id st).1 id =
        some st) ∧
    (∀ (m : Registry) (id : String),
      getActiveTaskRuntimeState (removeActiveTaskRuntimeState m id) id = none) ∧
    (∀ (m : Registry) (id : String),
      registryGet m id = none → removeActiveTaskRuntimeState m id = m) ∧
    (∀ (m : Registry) (id id2 : String) (st patch : Obj), id2 ≠ id →
      getActiveTaskRuntimeState (registerActiveTaskRuntimeState m id st).1 id2 =
          getActiveTaskRuntimeState m id2 ∧
        getActiveTaskRuntimeState (updateActiveTaskRuntimeState m id patch).1 id2 =
          getActiveTaskRuntimeState m id2 ∧
        getActiveTaskRuntimeState (removeActiveTaskRuntimeState m id) id2 =
          getActiveTaskRuntimeState m id2) := by
  refine ⟨?_, ?_, ?_, ?_, ?_⟩
  · intro m id patch h
    unfold updateActiveTaskRuntimeState
    rw [h]
  · intro m id st
    exact registryGet_set_self m id st
  · intro m id
    exact registryGet_remove_self m id
  · intro m id h
    exact remove_of_absent m id h
  · intro m id id2 st patch h
    refine ⟨registryGet_set_ne m id id2 st h, ?_, registryGet_remove_ne m id id2 h⟩
    unfold updateActiveTaskRuntimeState
    rcases registryGet m id with _ | cur
    · rfl
    · exact registryGet_set_ne m id id2 _ h

/-- Witness for C10 at concrete inputs. -/
theorem runtimeStateRegistry_semantics_witness :
    updateActiveTaskRuntimeState [] "a" [] = ([], none) ∧
    getActiveTaskRuntimeState
      (registerActiveTaskRuntimeState [("b", [])] "a" [("pid", .vNum 7)]).1 "a" =
      some [("pid", .vNum 7)] ∧
    getActiveTaskRuntimeState
      (removeActiveTaskRuntimeState [("a", []), ("b", [])] "a") "b" = some [] := by
  refine ⟨runtimeStateRegistry_semantics.1 [] "a" [] rfl,
    runtimeStateRegistry_semantics.2.1 [("b", [])] "a" [("pid", .vNum 7)],
    (runtimeStateRegistry_semantics.2.2.2.2 [("a", []), ("b", [])] "a" "b" [] []
      (by decide)).2.2⟩

/-- Claim C5 (amended): the download parser returns `null` exactly for lines
that are blank after trimming; every other line yields a patch, and a non-empty
line matching none of the recognized patterns yields the patch containing only
`last_line`. -/
theorem parser_unmatched_yields_lastLine_patch :
    (∀ line : String,
      parseYtDlpProgressOutputLine line = none ↔ jsTrim line.data = []) ∧
    (∀ line : String,
      findDestinationCapture (jsTrim line.data) = none →
      containsSub (jsTrim line.data) "has already been downloaded".data = false →
      findPctCapture none (jsTrim line.data) = none →
      findSpeedCapture none (jsTrim line.data) = none →
      findEtaCapture none (jsTrim line.data) = none →
      (startsWithL (jsTrim line.data) "ERROR:".data ||
        containsSub (jsTrim line.data) "Error:".data) = false →
      jsTrim line.data ≠ [] →
      parseYtDlpProgressOutputLine line =
        some [("last_line", .vStr (String.mk (jsTrim line.data)))]) := by
  constructor
  · intro line
    unfold parseYtDlpProgressOutputLine
    by_cases h : (jsTrim line.data).isEmpty
    · rw [if_pos h]
      simp [List.isEmpty_iff.mp h]
    · rw [if_neg h]
      constructor
      · intro hh
        cases hh
      · intro hh
        exact absurd (List.isEmpty_iff.mpr hh) h
  · intro line hdest hsent hpct hspd heta herr hne
    unfold parseYtDlpProgressOutputLine
    rw [if_neg (fun hh => hne (List.isEmpty_iff.mp hh))]
    unfold errorStage etaStage speedStage pctStage sentinelStage destStage
    rw [hdest, hsent, hpct, hspd, heta, herr]
    simp

/-- Witness for C5's amended statement at a concrete unmatched line. -/
theorem parser_unmatched_yields_lastLine_patch_witness :
    parseYtDlpProgressOutputLine "hello world" =
      some [("last_line", .vStr "hello world")] :=
  parser_unmatched_yields_lastLine_patch.2 "hello world" (by decide) (by decide)
    (by decide) (by decide) (by decide) (by decide) (by decide)

/-- Counterexample to C5 as stated: `"hello world"` matches none of the
recognized patterns, yet the parser yields a (non-null) patch. -/
theorem parser_unmatched_line_patch_not_null :
    findDestinationCapture (jsTrim "hello world".data) = none ∧
    containsSub (jsTrim "hello world".data) "has already been downloaded".data
      = false ∧
    findPctCapture none (jsTrim "hello world".data) = none ∧
    findSpeedCapture none (jsTrim "hello world".data) = none ∧
    findEtaCapture none (jsTrim "hello world".data) = none ∧
    (startsWithL (jsTrim "hello world".data) "ERROR:".data ||
      containsSub (jsTrim "hello world".data) "Error:".data) = false ∧
    (parseYtDlpProgressOutputLine "hello world").isSome = true := by
  decide

/-! ## Field accessors for stating store-level properties -/

/-- The string value of a record field, when the record is an object and the
field a string. -/
def getStrField (v : JsValue) (k : String) : Option String :=
  match v with
  | .vObj o =>
    match jsLookup o k with
    | some (.vStr s) => some s
    | _ => none
  | _ => none

/-- The numeric value of a record field. -/
def getNumField (v : JsValue) (k : String) : Option ℚ :=
  match v with
  | .vObj o =>
    match jsLookup o k with
    | some (.vNum q) => some q
    | _ => none
  | _ => none

/-- String field of the record stored under `tid`. -/
def taskFieldStr (s : StoreState) (tid k : String) : Option String :=
  match (findTaskRecordById s tid).2 with
  | some r => getStrField r k
  | none => none

/-- Numeric field of the record stored under `tid`. -/
def taskFieldNum (s : StoreState) (tid k : String) : Option ℚ :=
  match (findTaskRecordById s tid).2 with
  | some r => getNumField r k
  | none => none

/-! ## Case shapes of the parser stages -/

theorem destStage_eq (t : List Char) (p : Obj) :
    destStage t p = p ∨ ∃ f g, destStage t p =
      jsSet (jsSet p "file_path" f) "file_name" g := by
  unfold destStage
  rcases findDestinationCapture t with _ | cap
  · exact Or.inl rfl
  · exact Or.inr ⟨_, _, rfl⟩

theorem sentinelStage_eq (t : List Char) (p : Obj) :
    sentinelStage t p = p ∨ sentinelStage t p =
      jsSet (jsSet p "status" (.vStr "completed")) "percentage" (.vNum 100) := by
  unfold sentinelStage
  by_cases h : containsSub t "has already been downloaded".data = true
  · rw [if_pos h]; exact Or.inr rfl
  · rw [if_neg h]; exact Or.inl rfl

theorem pctStage_eq (t : List Char) (p : Obj) :
    pctStage t p = p ∨ ∃ q : ℚ, pctStage t p =
      jsSet (jsSet p "status" (.vStr "downloading")) "percentage" (.vNum q) := by
  unfold pctStage
  rcases findPctCapture none t with _ | cap
  · exact Or.inl rfl
  · dsimp only
    by_cases h : startsWithL t "[download]".data = true
    · rw [if_pos h]; exact Or.inr ⟨_, rfl⟩
    · rw [if_neg h]; exact Or.inl rfl

theorem speedStage_eq (t : List Char) (p : Obj) :
    speedStage t p = p ∨ ∃ v, speedStage t p = jsSet p "speed" v := by
  unfold speedStage
  rcases findSpeedCapture none t with _ | cap
  · exact Or.inl rfl
  · exact Or.inr ⟨_, rfl⟩

theorem etaStage_eq (t : List Char) (p : Obj) :
    etaStage t p = p ∨ ∃ v, etaStage t p = jsSet p "eta" v := by
  unfold etaStage
  rcases findEtaCapture none t with _ | cap
  · exact Or.inl rfl
  · exact Or.inr ⟨_, rfl⟩

theorem errorStage_eq (t : List Char) (p : Obj) :
    errorStage t p = p ∨ ∃ e, errorStage t p =
      jsSet (jsSet p "status" (.vStr "failed")) "error" e := by
  unfold errorStage
  by_cases h : (startsWithL t "ERROR:".data || containsSub t "Error:".data) = true
  · rw [if_pos h]; exact Or.inr ⟨_, rfl⟩
  · rw [if_neg h]; exact Or.inl rfl

/-- Claim C4 (amended): every patch of this program that sets
`status: "completed"` also sets `percentage: 100` — the download parser's
patches, the download close-handler's completion patch, and the transcription
progress patches.  (The converse fails: see the counterexample.) -/
theorem completed_patches_carry_percentage_100 :
    (∀ (line : String) (p : Obj), parseYtDlpProgressOutputLine line = some p →
      jsLookup p "status" = some (.vStr "completed") →
      jsLookup p "percentage" = some (.vNum 100)) ∧
    (∀ (exitCode : Option ℤ) (finIso : String),
      jsLookup (downloadCompletionPatch exitCode finIso) "status" =
        some (.vStr "completed") →
      jsLookup (downloadCompletionPatch exitCode finIso) "percentage" =
        some (.vNum 100)) ∧
    (∀ (progressData : JsValue) (nowIso transcriptOutputPath : String),
      jsLookup (transcriptionProgressPatch progressData nowIso
        transcriptOutputPath) "status" = some (.vStr "completed") →
      jsLookup (transcriptionProgressPatch progressData nowIso
        transcriptOutputPath) "percentage" = some (.vNum 100)) := by
  refine ⟨?_, ?_, ?_⟩
  · intro line p hp hst
    unfold parseYtDlpProgressOutputLine at hp
    by_cases h0 : (jsTrim line.data).isEmpty
    · rw [if_pos h0] at hp
      cases hp
    · rw [if_neg h0] at hp
      have hp2 := Option.some.injEq _ _ ▸ hp
      subst hp2
      rcases errorStage_eq (jsTrim line.data)
          (etaStage (jsTrim line.data) (speedStage (jsTrim line.data)
            (pctStage (jsTrim line.data) (sentinelStage (jsTrim line.data)
              (destStage (jsTrim line.data)
                [("last_line", .vStr (String.mk (jsTrim line.data)))])))))
        with he | ⟨e, he⟩
      · rw [he] at hst ⊢
        rcases etaStage_eq (jsTrim line.data) (speedStage (jsTrim line.data)
            (pctStage (jsTrim line.data) (sentinelStage (jsTrim line.data)
              (destStage (jsTrim line.data)
                [("last_line", .vStr (String.mk (jsTrim line.data)))]))))
          with h5 | ⟨v5, h5⟩ <;> rw [h5] at hst ⊢ <;>
        [skip; rw [jsLookup_jsSet_ne _ _ _ _ (by decide)] at hst ⊢] <;>
        · rcases speedStage_eq (jsTrim line.data)
              (pctStage (jsTrim line.data) (sentinelStage (jsTrim line.data)
                (destStage (jsTrim line.data)
                  [("last_line", .vStr (String.mk (jsTrim line.data)))])))
            with h4 | ⟨v4, h4⟩ <;> rw [h4] at hst ⊢ <;>
          [skip; rw [jsLookup_jsSet_ne _ _ _ _ (by decide)] at hst ⊢] <;>
          · rcases pctStage_eq (jsTrim line.data) (sentinelStage (jsTrim line.data)
                (destStage (jsTrim line.data)
                  [("last_line", .vStr (String.mk (jsTrim line.data)))]))
              with h3 | ⟨q3, h3⟩
            · rw [h3] at hst ⊢
              rcases sentinelStage_eq (jsTrim line.data) (destStage (jsTrim line.data)
                  [("last_line", .vStr (String.mk (jsTrim line.data)))])
                with h2 | h2 <;> rw [h2] at hst ⊢
              · rcases destStage_eq (jsTrim line.data)
                    [("last_line", .vStr (String.mk (jsTrim line.data)))]
                  with h1 | ⟨f, g, h1⟩ <;> rw [h1] at hst
                · simp [jsLookup] at hst
                · simp [jsLookup_jsSet_ne, jsLookup] at hst
              · rw [jsLookup_jsSet_self]
            · rw [h3] at hst
              rw [jsLookup_jsSet_ne _ _ _ _ (by decide),
                jsLookup_jsSet_self] at hst
              simp at hst
      · rw [he] at hst
        rw [jsLookup_jsSet_ne _ _ _ _ (by decide), jsLookup_jsSet_self] at hst
        simp at hst
  · intro exitCode finIso hst
    by_cases h : exitCode = some 0
    · simp [downloadCompletionPatch, h, jsLookup]
    · simp [downloadCompletionPatch, h, jsLookup] at hst
  · intro progressData nowIso transcriptOutputPath hst
    unfold transcriptionProgressPatch at hst ⊢
    by_cases h1 : fieldIsStr progressData "status" "completed" = true
    · rw [if_pos h1] at hst ⊢
      rw [jsLookup_jsSet_ne _ _ _ _ (by decide),
        jsLookup_jsSet_ne _ _ _ _ (by decide),
        jsLookup_jsSet_ne _ _ _ _ (by decide),
        jsLookup_jsSet_ne _ _ _ _ (by decide),
        jsLookup_jsSet_self]
    · rw [if_neg h1] at hst ⊢
      by_cases h2 : fieldIsStr progressData "status" "error" = true
      · rw [if_pos h2] at hst
        rw [jsLookup_jsSet_ne _ _ _ _ (by decide), jsLookup_jsSet_self] at hst
        simp at hst
      · rw [if_neg h2] at hst
        simp [jsLookup] at hst

/-- Witness for C4's amended statement: the already-downloaded sentinel patch
has `status: "completed"` and the theorem yields `percentage: 100`. -/
theorem completed_patches_carry_percentage_100_witness :
    jsLookup [("last_line", JsValue.vStr "v has already been downloaded"),
      ("status", .vStr "completed"), ("percentage", .vNum 100)] "percentage" =
      some (.vNum 100) :=
  completed_patches_carry_percentage_100.1 "v has already been downloaded" _
    rfl rfl

/-- Counterexample to C4 as stated: after a `[download] ... 100%`-token line
(the `%` must be followed by a word character for the source regex to match),
the persisted record has `percentage = 100` while `status` is `"downloading"`,
not `"completed"` — refuting "percentage equals 100 iff status is completed". -/
theorem percentage_100_with_status_downloading :
    taskFieldNum (processOutputLine ⟨none, 0⟩
      ⟨some [("tasks", .vArr [.vObj [("id", .vStr "t1"),
        ("status", .vStr "running"), ("percentage", .vNum 0)]])], .invalid⟩
      "t1" "[download] 100%done" 5000 "T1").2 "t1" "percentage" =
      some ((jsMathRound ((min 100 (decimalToRat "100".data)) * 10) : ℚ) / 10) ∧
    ((jsMathRound ((min 100 (decimalToRat "100".data)) * 10) : ℚ) / 10
      = (100 : ℚ)) ∧
    taskFieldStr (processOutputLine ⟨none, 0⟩
      ⟨some [("tasks", .vArr [.vObj [("id", .vStr "t1"),
        ("status", .vStr "running"), ("percentage", .vNum 0)]])], .invalid⟩
      "t1" "[download] 100%done" 5000 "T1").2 "t1" "status" =
      some "downloading" := by
  refine ⟨rfl, ?_, rfl⟩
  have h1 : decimalToRat "100".data = (100 : ℚ) := by decide
  rw [h1, min_self]
  norm_num [jsMathRound]

/-! ## Reading fields after an update -/

theorem lookup_id_of_recordHasId (r : JsValue) (tid : String)
    (h : recordHasId r tid = true) :
    jsLookup (objOf r) "id" = some (.vStr tid) := by
  cases r with
  | vObj o =>
    simp only [recordHasId] at h
    rcases hlook : jsLookup o "id" with _ | v
    · rw [hlook] at h
      cases h
    · rw [hlook] at h
      cases v with
      | vStr s =>
        have : s = tid := by simpa using h
        subst this
        simpa [objOf] using hlook
      | vUndefined => cases h
      | vNull => cases h
      | vBool b => cases h
      | vNum q => cases h
      | vArr l => cases h
      | vObj o2 => cases h
  | vUndefined => cases h
  | vNull => cases h
  | vBool b => cases h
  | vNum q => cases h
  | vStr s => cases h
  | vArr l => cases h

theorem lookup_mkUpdatedRecord_updated_at (o patch : Obj) (ts : String) :
    jsLookup (mkUpdatedRecord o patch ts) "updated_at" = some (.vStr ts) :=
  jsLookup_jsSet_self _ _ _

theorem lookup_mkUpdatedRecord_of_patch (o patch : Obj) (ts key : String)
    (v : JsValue) (hk : key ≠ "updated_at")
    (hp : (patch.map Prod.fst).Nodup) (hv : jsLookup patch key = some v) :
    jsLookup (mkUpdatedRecord o patch ts) key = some v := by
  unfold mkUpdatedRecord
  rw [jsLookup_jsSet_ne _ _ _ _ hk, jsLookup_jsMerge _ _ _ hp, hv]

theorem lookup_mkUpdatedRecord_of_old (o patch : Obj) (ts key : String)
    (hk : key ≠ "updated_at") (hp : ∀ kv ∈ patch, kv.1 ≠ key) :
    jsLookup (mkUpdatedRecord o patch ts) key = jsLookup o key := by
  unfold mkUpdatedRecord
  rw [jsLookup_jsSet_ne _ _ _ _ hk, jsLookup_jsMerge_of_notMem _ _ _ hp]

/-- Updating an existing record with a patch that does not touch `id`: the
update returns the merged record and the store afterwards holds it under the
same id. -/
theorem update_then_field (s : StoreState) (db : Obj) (tid : String)
    (patch : Obj) (ts : String) (r : JsValue)
    (hc : s.cache = some db)
    (hr : (tasksOf db).find? (recordHasId · tid) = some r)
    (hid : ∀ kv ∈ patch, kv.1 ≠ "id") :
    (updateExistingTaskRecord s tid patch ts).2 =
        some (mkUpdatedRecord (objOf r) patch ts) ∧
      (findTaskRecordById (updateExistingTaskRecord s tid patch ts).1 tid).2 =
        some (.vObj (mkUpdatedRecord (objOf r) patch ts)) := by
  have hfind := List.find?_some hr
  have hupd := updateFirstMatching_of_find_some (tasksOf db) tid patch ts r hr
  obtain ⟨tasks2, h1, h2⟩ := hupd
  have hhasid : recordHasId (.vObj (mkUpdatedRecord (objOf r) patch ts)) tid
      = true := by
    have hidlook : jsLookup (mkUpdatedRecord (objOf r) patch ts) "id" =
        jsLookup (objOf r) "id" :=
      lookup_mkUpdatedRecord_of_old _ _ _ _ (by decide) hid
    simp only [recordHasId, hidlook, lookup_id_of_recordHasId r tid hfind]
    simp
  have hload := load_of_cache s db hc
  unfold updateExistingTaskRecord
  rw [hload]
  simp only [h1]
  constructor
  · trivial
  · unfold findTaskRecordById
    rw [load_of_cache _ (jsSet db "tasks" (.vArr tasks2)) rfl]
    simp only [tasksOf, jsLookup_jsSet_self]
    exact h2 hhasid

/-- Is the field stored as JSON `null`? -/
def taskFieldIsNull (s : StoreState) (tid k : String) : Bool :=
  match (findTaskRecordById s tid).2 with
  | some (.vObj o) =>
    match jsLookup o k with
    | some .vNull => true
    | _ => false
  | _ => false

theorem completionPatch_finished_at (exitCode : Option ℤ) (finIso : String) :
    jsLookup (downloadCompletionPatch exitCode finIso) "finished_at" =
      some (.vStr finIso) := by
  by_cases h : exitCode = some 0 <;> simp [downloadCompletionPatch, h, jsLookup]

/-- Claim C3 (amended): the close handlers and the transcription service stamp
`finished_at` on their terminal writes — the download completion patch always
carries `finished_at`, the transcription completed-sentinel patch stamps it,
and the transcription error handler persists `status: "failed"` together with
`finished_at`.  (The download error handler and the download parser's terminal
patches do not stamp it: see the counterexample.) -/
theorem terminal_close_writes_stamp_finished_at :
    (∀ (exitCode : Option ℤ) (finIso : String),
      jsLookup (downloadCompletionPatch exitCode finIso) "finished_at" =
        some (.vStr finIso)) ∧
    (∀ (progressData : JsValue) (nowIso path : String),
      fieldIsStr progressData "status" "completed" = true →
      jsLookup (transcriptionProgressPatch progressData nowIso path)
        "finished_at" = some (.vStr nowIso)) ∧
    (∀ (s : StoreState) (db : Obj) (tid errMsg finIso updIso : String)
        (r : JsValue),
      s.cache = some db →
      (tasksOf db).find? (recordHasId · tid) = some r →
      taskFieldStr (transcriptionOnError s tid errMsg finIso updIso) tid
          "finished_at" = some finIso ∧
        taskFieldStr (transcriptionOnError s tid errMsg finIso updIso) tid
          "status" = some "failed") := by
  refine ⟨?_, ?_, ?_⟩
  · intro exitCode finIso
    exact completionPatch_finished_at exitCode finIso
  · intro progressData nowIso path h
    unfold transcriptionProgressPatch
    rw [if_pos h]
    rw [jsLookup_jsSet_ne _ _ _ _ (by decide),
      jsLookup_jsSet_ne _ _ _ _ (by decide),
      jsLookup_jsSet_ne _ _ _ _ (by decide),
      jsLookup_jsSet_self]
  · intro s db tid errMsg finIso updIso r hc hr
    have h := update_then_field s db tid
      [("status", .vStr "failed"), ("error", .vStr errMsg),
        ("finished_at", .vStr finIso)] updIso r hc hr (by simp)
    have hlook1 : jsLookup (mkUpdatedRecord (objOf r)
        [("status", .vStr "failed"), ("error", .vStr errMsg),
          ("finished_at", .vStr finIso)] updIso) "finished_at" =
        some (.vStr finIso) :=
      lookup_mkUpdatedRecord_of_patch _ _ _ _ _ (by decide) (by simp)
        (by simp [jsLookup])
    have hlook2 : jsLookup (mkUpdatedRecord (objOf r)
        [("status", .vStr "failed"), ("error", .vStr errMsg),
          ("finished_at", .vStr finIso)] updIso) "status" =
        some (.vStr "failed") :=
      lookup_mkUpdatedRecord_of_patch _ _ _ _ _ (by decide) (by simp)
        (by simp [jsLookup])
    unfold transcriptionOnError taskFieldStr
    constructor
    · rw [h.2]
      dsimp only [getStrField]
      rw [hlook1]
    · rw [h.2]
      dsimp only [getStrField]
      rw [hlook2]

/-- Witness for C3's amended statement at concrete inputs. -/
theorem terminal_close_writes_stamp_finished_at_witness :
    jsLookup (downloadCompletionPatch (some 0) "F1") "finished_at" =
        some (.vStr "F1") ∧
      taskFieldStr (transcriptionOnError
        ⟨some [("tasks", .vArr [.vObj [("id", .vStr "t1"),
          ("status", .vStr "running"), ("finished_at", .vNull)]])], .invalid⟩
        "t1" "boom" "F2" "U2") "t1" "finished_at" = some "F2" :=
  ⟨terminal_close_writes_stamp_finished_at.1 (some 0) "F1",
    (terminal_close_writes_stamp_finished_at.2.2
      ⟨some [("tasks", .vArr [.vObj [("id", .vStr "t1"),
        ("status", .vStr "running"), ("finished_at", .vNull)]])], .invalid⟩
      [("tasks", .vArr [.vObj [("id", .vStr "t1"),
        ("status", .vStr "running"), ("finished_at", .vNull)]])]
      "t1" "boom" "F2" "U2"
      (.vObj [("id", .vStr "t1"), ("status", .vStr "running"),
        ("finished_at", .vNull)])
      rfl rfl).1⟩

/-- Counterexample to C3 as stated: the download spawn-error handler persists
`status: "failed"` while `finished_at` remains `null`. -/
theorem download_error_handler_fails_without_finished_at :
    taskFieldStr (downloadOnError ⟨none, 0⟩
      ⟨some [("tasks", .vArr [.vObj [("id", .vStr "t1"),
        ("status", .vStr "running"), ("finished_at", .vNull)]])], .invalid⟩
      "t1" "spawn yt-dlp ENOENT" 5000 "T1").2 "t1" "status" = some "failed" ∧
    taskFieldIsNull (downloadOnError ⟨none, 0⟩
      ⟨some [("tasks", .vArr [.vObj [("id", .vStr "t1"),
        ("status", .vStr "running"), ("finished_at", .vNull)]])], .invalid⟩
      "t1" "spawn yt-dlp ENOENT" 5000 "T1").2 "t1" "finished_at" = true := by
  exact ⟨rfl, rfl⟩

theorem keys_jsSet_sub (o : Obj) (k : String) (v : JsValue) (x : String)
    (h : x ∈ (jsSet o k v).map Prod.fst) : x ∈ o.map Prod.fst ∨ x = k := by
  induction o with
  | nil =>
    simp only [jsSet, List.map_cons, List.map_nil] at h
    exact Or.inr (by simpa using h)
  | cons hd tl ih =>
    obtain ⟨k0, v0⟩ := hd
    by_cases h0 : k0 = k
    · subst h0
      simp only [jsSet, if_pos rfl, List.map_cons] at h
      rcases List.mem_cons.mp h with h | h
      · exact Or.inl (by simp [h])
      · exact Or.inl (by simp [h])
    · simp only [jsSet, if_neg h0, List.map_cons] at h
      rcases List.mem_cons.mp h with h | h
      · exact Or.inl (by simp [h])
      · rcases ih h with h | h
        · exact Or.inl (by simp [h])
        · exact Or.inr h

theorem keys_jsMerge_sub (a b : Obj) (x : String)
    (h : x ∈ (jsMerge a b).map Prod.fst) :
    x ∈ a.map Prod.fst ∨ x ∈ b.map Prod.fst := by
  induction b generalizing a with
  | nil => exact Or.inl h
  | cons hd tl ih =>
    obtain ⟨k0, v0⟩ := hd
    rw [jsMerge_cons] at h
    rcases ih _ h with h | h
    · rcases keys_jsSet_sub a k0 v0 x h with h | h
      · exact Or.inl h
      · exact Or.inr (by simp [h])
    · exact Or.inr (by simp [h])

theorem nodup_keys_jsSet (o : Obj) (k : String) (v : JsValue)
    (h : (o.map Prod.fst).Nodup) : ((jsSet o k v).map Prod.fst).Nodup := by
  induction o with
  | nil => simp [jsSet]
  | cons hd tl ih =>
    obtain ⟨k0, v0⟩ := hd
    simp only [List.map_cons, List.nodup_cons] at h
    by_cases h0 : k0 = k
    · subst h0
      have he : jsSet ((k0, v0) :: tl) k0 v = (k0, v) :: tl := by simp [jsSet]
      rw [he]
      simpa using h
    · simp only [jsSet, if_neg h0, List.map_cons, List.nodup_cons]
      refine ⟨fun hx => ?_, ih h.2⟩
      rcases keys_jsSet_sub tl k v k0 hx with hx | hx
      · exact h.1 hx
      · exact h0 hx

theorem nodup_keys_jsMerge (a b : Obj) (h : (a.map Prod.fst).Nodup) :
    ((jsMerge a b).map Prod.fst).Nodup := by
  induction b generalizing a with
  | nil => exact h
  | cons hd tl ih =>
    obtain ⟨k0, v0⟩ := hd
    rw [jsMerge_cons]
    exact ih _ (nodup_keys_jsSet a k0 v0 h)

theorem completionPatch_keys_ne_id (exitCode : Option ℤ) (finIso : String) :
    ∀ kv ∈ downloadCompletionPatch exitCode finIso, kv.1 ≠ "id" := by
  by_cases h : exitCode = some 0 <;> simp [downloadCompletionPatch, h]

theorem completionPatch_keys_nodup (exitCode : Option ℤ) (finIso : String) :
    ((downloadCompletionPatch exitCode finIso).map Prod.fst).Nodup := by
  by_cases h : exitCode = some 0 <;> simp [downloadCompletionPatch, h]

theorem completionPatch_status (exitCode : Option ℤ) (finIso : String) :
    jsLookup (downloadCompletionPatch exitCode finIso) "status" =
      some (.vStr (if exitCode = some 0 then "completed" else "failed")) := by
  by_cases h : exitCode = some 0 <;> simp [downloadCompletionPatch, h, jsLookup]

/-- Claim C2 (amended): terminal patches from the download `close` and `error`
handlers are force-flushed — the store write happens in the same call with no
condition on the time since the last write; a parser-detected terminal patch
goes through the batched path and is deferred whenever less than one second
has elapsed (it is held in the pending accumulator, not written). -/
theorem close_and_error_flush_immediately_parser_defers :
    (∀ (ws : WriterState) (s : StoreState) (db : Obj) (tid : String)
        (exitCode : Option ℤ) (finIso : String) (now : ℤ) (updIso : String)
        (r : JsValue),
      s.cache = some db →
      (tasksOf db).find? (recordHasId · tid) = some r →
      ((ws.pendingProgressPatch.getD []).map Prod.fst).Nodup →
      (∀ kv ∈ ws.pendingProgressPatch.getD [], kv.1 ≠ "id") →
      taskFieldStr (downloadOnClose ws s tid exitCode finIso now updIso).2
          tid "status" =
          some (if exitCode = some 0 then "completed" else "failed") ∧
        taskFieldStr (downloadOnClose ws s tid exitCode finIso now updIso).2
          tid "finished_at" = some finIso) ∧
    (∀ (ws : WriterState) (s : StoreState) (db : Obj) (tid errMsg : String)
        (now : ℤ) (updIso : String) (r : JsValue),
      s.cache = some db →
      (tasksOf db).find? (recordHasId · tid) = some r →
      ((ws.pendingProgressPatch.getD []).map Prod.fst).Nodup →
      (∀ kv ∈ ws.pendingProgressPatch.getD [], kv.1 ≠ "id") →
      taskFieldStr (downloadOnError ws s tid errMsg now updIso).2 tid "status"
        = some "failed") ∧
    (∀ (ws : WriterState) (s : StoreState) (tid : String) (line : String)
        (now : ℤ) (updIso : String),
      now - ws.lastDiskPersistTimestamp < 1000 →
      (processOutputLine ws s tid line now updIso).2 = s) := by
  refine ⟨?_, ?_, ?_⟩
  · intro ws s db tid exitCode finIso now updIso r hc hr hnodup hid
    have hmk : ∀ kv ∈ jsMerge (ws.pendingProgressPatch.getD [])
        (downloadCompletionPatch exitCode finIso), kv.1 ≠ "id" := by
      intro kv hkv
      rcases keys_jsMerge_sub _ _ kv.1 (List.mem_map_of_mem Prod.fst hkv)
        with hx | hx
      · obtain ⟨kv2, hkv2, hkv2e⟩ := List.mem_map.mp hx
        exact hkv2e ▸ hid kv2 hkv2
      · obtain ⟨kv2, hkv2, hkv2e⟩ := List.mem_map.mp hx
        exact hkv2e ▸ completionPatch_keys_ne_id exitCode finIso kv2 hkv2
    have hmnodup := nodup_keys_jsMerge (ws.pendingProgressPatch.getD [])
      (downloadCompletionPatch exitCode finIso) hnodup
    have hlst : jsLookup (jsMerge (ws.pendingProgressPatch.getD [])
        (downloadCompletionPatch exitCode finIso)) "status" =
        some (.vStr (if exitCode = some 0 then "completed" else "failed")) := by
      rw [jsLookup_jsMerge _ _ _ (completionPatch_keys_nodup exitCode finIso),
        completionPatch_status]
    have hlfin : jsLookup (jsMerge (ws.pendingProgressPatch.getD [])
        (downloadCompletionPatch exitCode finIso)) "finished_at" =
        some (.vStr finIso) := by
      rw [jsLookup_jsMerge _ _ _ (completionPatch_keys_nodup exitCode finIso),
        completionPatch_finished_at exitCode finIso]
    have h := update_then_field s db tid
      (jsMerge (ws.pendingProgressPatch.getD [])
        (downloadCompletionPatch exitCode finIso)) updIso r hc hr hmk
    have hu1 := lookup_mkUpdatedRecord_of_patch (objOf r) _ updIso "status" _
      (by decide) hmnodup hlst
    have hu2 := lookup_mkUpdatedRecord_of_patch (objOf r) _ updIso
      "finished_at" _ (by decide) hmnodup hlfin
    unfold downloadOnClose persistProgressPatchToDisk
    simp only [Bool.not_true, Bool.false_eq_true, false_and, if_false,
      taskFieldStr]
    rw [h.2]
    constructor
    · dsimp only [getStrField]
      rw [hu1]
    · dsimp only [getStrField]
      rw [hu2]
  · intro ws s db tid errMsg now updIso r hc hr hnodup hid
    have hmk : ∀ kv ∈ jsMerge (ws.pendingProgressPatch.getD [])
        [("status", JsValue.vStr "failed"), ("error", .vStr errMsg)],
        kv.1 ≠ "id" := by
      intro kv hkv
      rcases keys_jsMerge_sub _ _ kv.1 (List.mem_map_of_mem Prod.fst hkv)
        with hx | hx
      · obtain ⟨kv2, hkv2, hkv2e⟩ := List.mem_map.mp hx
        exact hkv2e ▸ hid kv2 hkv2
      · simp at hx
        rcases hx with hx | hx <;> simp [hx]
    have hmnodup := nodup_keys_jsMerge (ws.pendingProgressPatch.getD [])
      [("status", JsValue.vStr "failed"), ("error", .vStr errMsg)] hnodup
    have hlst : jsLookup (jsMerge (ws.pendingProgressPatch.getD [])
        [("status", JsValue.vStr "failed"), ("error", .vStr errMsg)]) "status"
        = some (.vStr "failed") := by
      rw [jsLookup_jsMerge _ _ _ (by simp)]
      simp [jsLookup]
    have h := update_then_field s db tid
      (jsMerge (ws.pendingProgressPatch.getD [])
        [("status", JsValue.vStr "failed"), ("error", .vStr errMsg)])
      updIso r hc hr hmk
    have hu1 := lookup_mkUpdatedRecord_of_patch (objOf r) _ updIso "status" _
      (by decide) hmnodup hlst
    unfold downloadOnError persistProgressPatchToDisk
    simp only [Bool.not_true, Bool.false_eq_true, false_and, if_false,
      taskFieldStr]
    rw [h.2]
    dsimp only [getStrField]
    rw [hu1]
  · intro ws s tid line now updIso h
    unfold processOutputLine
    by_cases h0 : line = ""
    · rw [if_pos h0]
    · rw [if_neg h0]
      unfold persistProgressPatchToDisk
      rcases parseYtDlpProgressOutputLine line with _ | p
      · rfl
      · dsimp only
        rw [if_pos ⟨by decide, h⟩]

/-- Witness for C2's amended statement: a close-handler write lands even when
the last write was only 500 ms ago. -/
theorem close_flush_immediate_witness :
    taskFieldStr (downloadOnClose ⟨none, 0⟩
      ⟨some [("tasks", .vArr [.vObj [("id", .vStr "t1"),
        ("status", .vStr "running"), ("finished_at", .vNull)]])], .invalid⟩
      "t1" (some 0) "F1" 500 "U1").2 "t1" "status" = some "completed" :=
  (close_and_error_flush_immediately_parser_defers.1 ⟨none, 0⟩
    ⟨some [("tasks", .vArr [.vObj [("id", .vStr "t1"),
      ("status", .vStr "running"), ("finished_at", .vNull)]])], .invalid⟩
    [("tasks", .vArr [.vObj [("id", .vStr "t1"),
      ("status", .vStr "running"), ("finished_at", .vNull)]])]
    "t1" (some 0) "F1" 500 "U1"
    (.vObj [("id", .vStr "t1"), ("status", .vStr "running"),
      ("finished_at", .vNull)])
    rfl rfl (by simp) (by simp)).1

/-- Counterexample to C2 as stated: the parser's already-downloaded sentinel
produces a terminal patch (`status: "completed"`), yet
`persistProgressPatchToDisk` is called without `forceFlush` for it, so 400 ms
after the previous write nothing is persisted — the store is unchanged and the
record still reads `running`. -/
theorem parser_terminal_patch_is_not_force_flushed :
    parseYtDlpProgressOutputLine "v has already been downloaded" =
      some [("last_line", .vStr "v has already been downloaded"),
        ("status", .vStr "completed"), ("percentage", .vNum 100)] ∧
    (processOutputLine ⟨none, 4600⟩
      ⟨some [("tasks", .vArr [.vObj [("id", .vStr "t1"),
        ("status", .vStr "running")]])], .invalid⟩
      "t1" "v has already been downloaded" 5000 "T1").2 =
      ⟨some [("tasks", .vArr [.vObj [("id", .vStr "t1"),
        ("status", .vStr "running")]])], .invalid⟩ ∧
    taskFieldStr (processOutputLine ⟨none, 4600⟩
      ⟨some [("tasks", .vArr [.vObj [("id", .vStr "t1"),
        ("status", .vStr "running")]])], .invalid⟩
      "t1" "v has already been downloaded" 5000 "T1").2 "t1" "status" =
      some "running" :=
  ⟨rfl, rfl, rfl⟩

theorem lookup_of_getStrField (r : JsValue) (k v : String)
    (h : getStrField r k = some v) : jsLookup (objOf r) k = some (.vStr v) := by
  cases r with
  | vObj o =>
    simp only [getStrField] at h
    rcases hlook : jsLookup o k with _ | w
    · rw [hlook] at h
      cases h
    · rw [hlook] at h
      cases w with
      | vStr s =>
        have : s = v := by simpa using h
        subst this
        simpa [objOf] using hlook
      | vUndefined => cases h
      | vNull => cases h
      | vBool b => cases h
      | vNum q => cases h
      | vArr l => cases h
      | vObj o2 => cases h
  | vUndefined => cases h
  | vNull => cases h
  | vBool b => cases h
  | vNum q => cases h
  | vStr s => cases h
  | vArr l => cases h

/-- Claim C1 (amended): the transcription `close` handler checks the persisted
status before stamping completion — a record already persisted as `completed`
stays `completed` on a zero exit (only `finished_at`/`updated_at` move).  The
download `close` handler has no such check and applies its exit-code status
unconditionally, so a parser-persisted terminal status can be overwritten by a
non-matching one (see the counterexample). -/
theorem transcription_close_preserves_completed :
    ∀ (s : StoreState) (db : Obj) (tid finIso updIso1 updIso2 : String)
      (r : JsValue),
      s.cache = some db →
      (tasksOf db).find? (recordHasId · tid) = some r →
      getStrField r "status" = some "completed" →
      taskFieldStr (transcriptionOnClose s tid (some 0) finIso updIso1 updIso2)
        tid "status" = some "completed" := by
  intro s db tid finIso updIso1 updIso2 r hc hr hst
  have h := update_then_field s db tid [("finished_at", .vStr finIso)]
    updIso1 r hc hr (by simp)
  have hlook : jsLookup (mkUpdatedRecord (objOf r)
      [("finished_at", .vStr finIso)] updIso1) "status" =
      some (.vStr "completed") := by
    rw [lookup_mkUpdatedRecord_of_old _ _ _ _ (by decide) (by simp)]
    exact lookup_of_getStrField r "status" "completed" hst
  have hguard : fieldIsStr (.vObj (mkUpdatedRecord (objOf r)
      [("finished_at", .vStr finIso)] updIso1)) "status" "completed" = true := by
    simp only [fieldIsStr, jsGetD, hlook, Option.getD_some]
    simp
  unfold transcriptionOnClose
  rw [if_pos rfl]
  dsimp only
  rw [h.1]
  dsimp only
  rw [if_pos hguard]
  unfold taskFieldStr
  rw [h.2]
  dsimp only [getStrField]
  rw [hlook]

/-- Witness for C1's amended statement at a concrete store. -/
theorem transcription_close_preserves_completed_witness :
    taskFieldStr (transcriptionOnClose
      ⟨some [("tasks", .vArr [.vObj [("id", .vStr "t1"),
        ("status", .vStr "completed"), ("percentage", .vNum 100)]])], .invalid⟩
      "t1" (some 0) "F1" "U1" "U2") "t1" "status" = some "completed" :=
  transcription_close_preserves_completed
    ⟨some [("tasks", .vArr [.vObj [("id", .vStr "t1"),
      ("status", .vStr "completed"), ("percentage", .vNum 100)]])], .invalid⟩
    [("tasks", .vArr [.vObj [("id", .vStr "t1"),
      ("status", .vStr "completed"), ("percentage", .vNum 100)]])]
    "t1" "F1" "U1" "U2"
    (.vObj [("id", .vStr "t1"), ("status", .vStr "completed"),
      ("percentage", .vNum 100)])
    rfl rfl rfl

/-- Counterexample to C1 as stated: in the download service a parser-detected
`ERROR:` line persists `status: "failed"` (a terminal status), and the `close`
handler firing afterwards with exit code 0 overwrites it unconditionally with
`"completed"` — a non-matching terminal status. -/
theorem download_close_overwrites_persisted_failed :
    taskFieldStr (processOutputLine ⟨none, 0⟩
      ⟨some [("tasks", .vArr [.vObj [("id", .vStr "t1"),
        ("status", .vStr "running")]])], .invalid⟩
      "t1" "ERROR: unable to download" 5000 "T1").2 "t1" "status" =
      some "failed" ∧
    taskFieldStr (downloadOnClose
      (processOutputLine ⟨none, 0⟩
        ⟨some [("tasks", .vArr [.vObj [("id", .vStr "t1"),
          ("status", .vStr "running")]])], .invalid⟩
        "t1" "ERROR: unable to download" 5000 "T1").1
      (processOutputLine ⟨none, 0⟩
        ⟨some [("tasks", .vArr [.vObj [("id", .vStr "t1"),
          ("status", .vStr "running")]])], .invalid⟩
        "t1" "ERROR: unable to download" 5000 "T1").2
      "t1" (some 0) "F1" 5500 "T2").2 "t1" "status" = some "completed" :=
  ⟨rfl, rfl⟩

/-- Claim C6 (amended): for both task kinds, buffered chunks are split on
`\r?\n` boundaries and every completed line is handed to the parser exactly
once, independently of how the stream content was chunked; the download reader
additionally flushes the trimmed trailing partial line exactly once at stream
end, while the transcription stderr handler — which attaches no `end`
handler — never parses a trailing partial line (see the counterexample). -/
theorem stream_lines_depend_only_on_content :
    (∀ chunks : List (List Char),
      downloadStreamLines chunks =
        (splitRN chunks.flatten).dropLast ++
          (if (jsTrim ((splitRN chunks.flatten).getLastD [])).isEmpty then []
            else [jsTrim ((splitRN chunks.flatten).getLastD [])])) ∧
    (∀ chunks : List (List Char),
      transcriptionStreamLines chunks = (splitRN chunks.flatten).dropLast) ∧
    (∀ chunks1 chunks2 : List (List Char),
      chunks1.flatten = chunks2.flatten →
      downloadStreamLines chunks1 = downloadStreamLines chunks2 ∧
        transcriptionStreamLines chunks1 = transcriptionStreamLines chunks2) := by
  refine ⟨?_, ?_, ?_⟩
  · intro chunks
    unfold downloadStreamLines
    rw [feedChunks_eq_join]
  · intro chunks
    unfold transcriptionStreamLines
    rw [feedChunks_eq_join]
  · intro chunks1 chunks2 h
    constructor
    · unfold downloadStreamLines
      rw [feedChunks_eq_join, feedChunks_eq_join, h]
    · unfold transcriptionStreamLines
      rw [feedChunks_eq_join, feedChunks_eq_join, h]

/-- Witness for C6: the specification's own example line split mid-token
across three chunks yields exactly the same parsed lines as the unsplit
stream. -/
theorem stream_lines_chunk_invariance_witness :
    downloadStreamLines ["[download]  50.0% ET".data, "A 00:10\n[down".data,
        "load]  75.0%".data] =
      downloadStreamLines ["[download]  50.0% ETA 00:10\n[download]  75.0%".data] ∧
    transcriptionStreamLines ["[download]  50.0% ET".data, "A 00:10\n[down".data,
        "load]  75.0%".data] =
      transcriptionStreamLines
        ["[download]  50.0% ETA 00:10\n[download]  75.0%".data] :=
  stream_lines_depend_only_on_content.2.2
    ["[download]  50.0% ET".data, "A 00:10\n[down".data, "load]  75.0%".data]
    ["[download]  50.0% ETA 00:10\n[download]  75.0%".data] rfl

/-- Counterexample to C6 as stated: at stream end the transcription stderr
handler leaves a trailing partial line unparsed (it attaches no `end`
handler), while the download reader flushes it once. -/
theorem transcription_never_parses_trailing_line :
    transcriptionStreamLines ["tail without newline".data] = [] ∧
    downloadStreamLines ["tail without newline".data] =
      ["tail without newline".data] := by
  constructor
  · rfl
  · rfl

/-- A backing file that is absent, malformed, or whose contents are not an
object carrying a `tasks` array. -/
def badBackingFile : FileState → Bool
  | .absent => true
  | .invalid => true
  | .json j =>
    match j with
    | .vObj o =>
      match jsLookup o "tasks" with
      | some (.vArr _) => false
      | _ => true
    | _ => true

theorem load_bad_file_tasks_nil (f : FileState) (h : badBackingFile f = true) :
    tasksOf (loadTaskDatabaseFromDisk ⟨none, f⟩).2 = [] := by
  cases f with
  | absent => rfl
  | invalid => rfl
  | json j =>
    cases j with
    | vObj o =>
      simp only [badBackingFile] at h
      unfold loadTaskDatabaseFromDisk parsedToDatabase
      dsimp only
      rcases hlook : jsLookup o "tasks" with _ | v
      · simp [tasksOf, jsMerge_cons, jsMerge_nil, jsLookup_jsSet_self]
      · rw [hlook] at h
        cases v with
        | vArr l => exact Bool.noConfusion h
        | vUndefined => simp [tasksOf, jsMerge_cons, jsMerge_nil, jsLookup_jsSet_self]
        | vNull => simp [tasksOf, jsMerge_cons, jsMerge_nil, jsLookup_jsSet_self]
        | vBool b => simp [tasksOf, jsMerge_cons, jsMerge_nil, jsLookup_jsSet_self]
        | vNum q => simp [tasksOf, jsMerge_cons, jsMerge_nil, jsLookup_jsSet_self]
        | vStr s2 => simp [tasksOf, jsMerge_cons, jsMerge_nil, jsLookup_jsSet_self]
        | vObj o2 => simp [tasksOf, jsMerge_cons, jsMerge_nil, jsLookup_jsSet_self]
    | vUndefined => rfl
    | vNull => rfl
    | vBool b => rfl
    | vNum q => rfl
    | vStr s2 => rfl
    | vArr l =>
      unfold loadTaskDatabaseFromDisk parsedToDatabase
      dsimp only
      simp [tasksOf, jsMerge_cons, jsMerge_nil, jsLookup_jsSet_self]

/-- Loading always caches exactly the database it returns. -/
theorem load_sets_cache (f : FileState) :
    (loadTaskDatabaseFromDisk ⟨none, f⟩).1.cache =
      some (loadTaskDatabaseFromDisk ⟨none, f⟩).2 := by
  cases f <;> rfl

/-- Reloading a freshly serialized database whose `tasks` entry is a
round-trip-stable list recovers that list. -/
theorem reload_json_tasks (X : Obj) (l : List JsValue)
    (hlook : jsLookup X "tasks" = some (.vArr l))
    (hstrip : stripUndefList l = l) :
    (retrieveAllTaskRecords ⟨none, .json (stripUndef (.vObj X))⟩).2 = l := by
  have hs : stripUndef (.vObj X) = .vObj (stripUndefObj X) := by
    simp [stripUndef]
  have hlook2 : jsLookup (stripUndefObj X) "tasks" = some (.vArr l) := by
    rw [jsLookup_stripUndefObj X "tasks" (.vArr l) hlook (by simp)]
    simp [stripUndef, hstrip]
  unfold retrieveAllTaskRecords loadTaskDatabaseFromDisk
  rw [hs]
  unfold parsedToDatabase
  dsimp only
  rw [hlook2]
  simp only [tasksOf, hlook2]

/-- Claim C7: a store whose backing file is absent, malformed, or not an
object with a `tasks` array behaves as an empty collection — `ListAll` returns
`[]` without error — and a subsequent `Insert` succeeds and rewrites a valid
file: reloading from the rewritten file (with an empty cache) yields exactly
the inserted record. -/
theorem store_selfheals_on_bad_backing_file :
    ∀ (f : FileState) (r : JsValue),
      badBackingFile f = true →
      stripUndef r = r →
      (retrieveAllTaskRecords ⟨none, f⟩).2 = [] ∧
      (insertNewTaskRecord (retrieveAllTaskRecords ⟨none, f⟩).1 r).2 = r ∧
      (retrieveAllTaskRecords ⟨none,
        (insertNewTaskRecord (retrieveAllTaskRecords ⟨none, f⟩).1 r).1.file⟩).2
        = [r] := by
  intro f r hbad hstrip
  refine ⟨load_bad_file_tasks_nil f hbad, rfl, ?_⟩
  have hc : (retrieveAllTaskRecords ⟨none, f⟩).1.cache =
      some (loadTaskDatabaseFromDisk ⟨none, f⟩).2 := load_sets_cache f
  have hload := load_of_cache (retrieveAllTaskRecords ⟨none, f⟩).1
    (loadTaskDatabaseFromDisk ⟨none, f⟩).2 hc
  have hins : (insertNewTaskRecord (retrieveAllTaskRecords ⟨none, f⟩).1 r).1.file
      = .json (stripUndef (.vObj (jsSet (loadTaskDatabaseFromDisk ⟨none, f⟩).2
          "tasks" (.vArr [r])))) := by
    unfold insertNewTaskRecord
    rw [hload]
    simp only [persistTaskDatabaseToDisk, load_bad_file_tasks_nil f hbad,
      List.nil_append]
  rw [hins]
  exact reload_json_tasks _ [r] (jsLookup_jsSet_self _ _ _)
    (by simp [stripUndefList, hstrip])

/-- Witness for C7 at a concrete malformed file and record. -/
theorem store_selfheals_on_bad_backing_file_witness :
    (retrieveAllTaskRecords ⟨none, .invalid⟩).2 = [] ∧
    (insertNewTaskRecord (retrieveAllTaskRecords ⟨none, .invalid⟩).1
      (.vObj [("id", .vStr "t1")])).2 = .vObj [("id", .vStr "t1")] ∧
    (retrieveAllTaskRecords ⟨none,
      (insertNewTaskRecord (retrieveAllTaskRecords ⟨none, .invalid⟩).1
        (.vObj [("id", .vStr "t1")])).1.file⟩).2 =
      [.vObj [("id", .vStr "t1")]] :=
  store_selfheals_on_bad_backing_file .invalid (.vObj [("id", .vStr "t1")])
    rfl (by simp [stripUndef, stripUndefObj])

/-- Claim C8 (amended): `Update` on an existing id returns the old record with
exactly the patch's fields shallowly overwritten plus a freshly stamped
`updated_at`; on an unknown id with a loaded cache it returns `null` and
leaves the store state completely unchanged.  (On a cold cache the lazy first
load may populate the cache and create a missing backing file even when the
update itself does nothing: see the counterexample.) -/
theorem update_merges_patch_or_returns_null :
    (∀ (s : StoreState) (db : Obj) (tid : String) (patch : Obj) (ts : String)
        (r : JsValue),
      s.cache = some db →
      (tasksOf db).find? (recordHasId · tid) = some r →
      (patch.map Prod.fst).Nodup →
      ∃ u, (updateExistingTaskRecord s tid patch ts).2 = some u ∧
        jsLookup u "updated_at" = some (.vStr ts) ∧
        ∀ key, key ≠ "updated_at" →
          jsLookup u key =
            match jsLookup patch key with
            | some v => some v
            | none => jsLookup (objOf r) key) ∧
    (∀ (s : StoreState) (db : Obj) (tid : String) (patch : Obj) (ts : String),
      s.cache = some db →
      (tasksOf db).find? (recordHasId · tid) = none →
      updateExistingTaskRecord s tid patch ts = (s, none)) := by
  constructor
  · intro s db tid patch ts r hc hr hnodup
    obtain ⟨tasks2, h1, _⟩ :=
      updateFirstMatching_of_find_some (tasksOf db) tid patch ts r hr
    refine ⟨mkUpdatedRecord (objOf r) patch ts, ?_, ?_, ?_⟩
    · unfold updateExistingTaskRecord
      rw [load_of_cache s db hc]
      simp only [h1]
    · exact lookup_mkUpdatedRecord_updated_at _ _ _
    · intro key hkey
      unfold mkUpdatedRecord
      rw [jsLookup_jsSet_ne _ _ _ _ hkey, jsLookup_jsMerge _ _ _ hnodup]
  · intro s db tid patch ts hc hr
    unfold updateExistingTaskRecord
    rw [load_of_cache s db hc]
    dsimp only
    rw [updateFirstMatching_of_find_none (tasksOf db) tid patch ts hr]

/-- Witness for C8 at concrete inputs: an update of an existing record merges
the patch, and an update of an unknown id on a warm store is a no-op. -/
theorem update_merges_patch_or_returns_null_witness :
    (∃ u, (updateExistingTaskRecord
        ⟨some [("tasks", .vArr [.vObj [("id", .vStr "t1"),
          ("status", .vStr "running")]])], .invalid⟩
        "t1" [("status", .vStr "failed")] "U1").2 = some u ∧
      jsLookup u "updated_at" = some (.vStr "U1") ∧
      ∀ key, key ≠ "updated_at" →
        jsLookup u key =
          match jsLookup [("status", JsValue.vStr "failed")] key with
          | some v => some v
          | none => jsLookup [("id", JsValue.vStr "t1"),
              ("status", JsValue.vStr "running")] key) ∧
    updateExistingTaskRecord
      ⟨some [("tasks", .vArr [.vObj [("id", .vStr "t1"),
        ("status", .vStr "running")]])], .invalid⟩
      "zz" [("status", .vStr "failed")] "U1" =
      (⟨some [("tasks", .vArr [.vObj [("id", .vStr "t1"),
        ("status", .vStr "running")]])], .invalid⟩, none) :=
  ⟨update_merges_patch_or_returns_null.1
      ⟨some [("tasks", .vArr [.vObj [("id", .vStr "t1"),
        ("status", .vStr "running")]])], .invalid⟩
      [("tasks", .vArr [.vObj [("id", .vStr "t1"),
        ("status", .vStr "running")]])]
      "t1" [("status", .vStr "failed")] "U1"
      (.vObj [("id", .vStr "t1"), ("status", .vStr "running")]) rfl rfl
      (by simp),
    update_merges_patch_or_returns_null.2
      ⟨some [("tasks", .vArr [.vObj [("id", .vStr "t1"),
        ("status", .vStr "running")]])], .invalid⟩
      [("tasks", .vArr [.vObj [("id", .vStr "t1"),
        ("status", .vStr "running")]])]
      "zz" [("status", .vStr "failed")] "U1" rfl rfl⟩

/-- Counterexample to C8 as stated: on a store whose cache is cold and whose
backing file is absent, `Update` with an unknown id returns `null` but the
lazy load has populated the cache and created the backing file — the store is
not "completely unchanged". -/
theorem update_missing_id_cold_cache_side_effect :
    (updateExistingTaskRecord ⟨none, .absent⟩ "x" [] "T1").2 = none ∧
    (updateExistingTaskRecord ⟨none, .absent⟩ "x" [] "T1").1.cache =
      some [("tasks", .vArr [])] ∧
    (updateExistingTaskRecord ⟨none, .absent⟩ "x" [] "T1").1.file =
      .json (.vObj [("tasks", .vArr [])]) ∧
    (FileState.json (.vObj [("tasks", .vArr [])]) = FileState.absent → False) :=
  ⟨rfl, rfl, rfl, fun h => FileState.noConfusion h⟩

/-- Writing a sequence of records through the store. -/
def insertAll (s : StoreState) (records : List JsValue) : StoreState :=
  records.foldl (fun st r => (insertNewTaskRecord st r).1) s

theorem insertAll_invariant (records : List JsValue) (rs : List JsValue)
    (f : FileState) :
    insertAll ⟨some [("tasks", .vArr rs)], f⟩ records =
      if records.isEmpty then ⟨some [("tasks", .vArr rs)], f⟩
      else ⟨some [("tasks", .vArr (rs ++ records))],
        .json (stripUndef (.vObj [("tasks", .vArr (rs ++ records))]))⟩ := by
  induction records generalizing rs f with
  | nil => rfl
  | cons r rest ih =>
    have hstep : (insertNewTaskRecord ⟨some [("tasks", .vArr rs)], f⟩ r).1 =
        ⟨some [("tasks", .vArr (rs ++ [r]))],
          .json (stripUndef (.vObj [("tasks", .vArr (rs ++ [r]))]))⟩ := by
      unfold insertNewTaskRecord
      dsimp only [loadTaskDatabaseFromDisk]
      simp [persistTaskDatabaseToDisk, tasksOf, jsLookup, jsSet]
    unfold insertAll
    rw [List.foldl_cons]
    have := ih (rs ++ [r]) (.json (stripUndef (.vObj [("tasks",
      .vArr (rs ++ [r]))])))
    unfold insertAll at this
    rw [hstep, this]
    by_cases hrest : rest.isEmpty
    · rw [if_pos hrest, if_neg (by simp)]
      rw [List.isEmpty_iff.mp hrest]
    · rw [if_neg hrest, if_neg (by simp)]
      simp

/-- Claim C9: writing N records through the store and reloading from the
backing file with an empty cache (a process restart) yields the same N
records, in insertion order, with identical field values — for records that
are JSON-representable (no `undefined`-valued fields, which
`JSON.stringify` would drop). -/
theorem store_roundtrip_preserves_records :
    ∀ records : List JsValue,
      stripUndefList records = records →
      (retrieveAllTaskRecords
        ⟨none, (insertAll ⟨none, .absent⟩ records).file⟩).2 = records := by
  intro records hstrip
  cases records with
  | nil => rfl
  | cons r rest =>
    have hfirst : (insertNewTaskRecord ⟨none, .absent⟩ r).1 =
        ⟨some [("tasks", .vArr [r])],
          .json (stripUndef (.vObj [("tasks", .vArr [r])]))⟩ := by
      unfold insertNewTaskRecord
      dsimp only [loadTaskDatabaseFromDisk]
      simp [persistTaskDatabaseToDisk, emptyDatabaseObj, tasksOf, jsLookup,
        jsSet]
    have hall : insertAll ⟨none, .absent⟩ (r :: rest) =
        ⟨some [("tasks", .vArr (r :: rest))],
          .json (stripUndef (.vObj [("tasks", .vArr (r :: rest))]))⟩ := by
      unfold insertAll
      rw [List.foldl_cons]
      have := insertAll_invariant rest [r]
        (.json (stripUndef (.vObj [("tasks", .vArr [r])])))
      unfold insertAll at this
      rw [hfirst, this]
      by_cases hrest : rest.isEmpty
      · rw [if_pos hrest]
        rw [List.isEmpty_iff.mp hrest]
      · rw [if_neg hrest]
        simp
    rw [hall]
    exact reload_json_tasks [("tasks", .vArr (r :: rest))] (r :: rest)
      (by simp [jsLookup]) hstrip

/-- Witness for C9 with two concrete records. -/
theorem store_roundtrip_preserves_records_witness :
    (retrieveAllTaskRecords
      ⟨none, (insertAll ⟨none, .absent⟩
        [.vObj [("id", .vStr "a"), ("percentage", .vNum 0)],
          .vObj [("id", .vStr "b"), ("status", .vStr "running")]]).file⟩).2 =
      [.vObj [("id", .vStr "a"), ("percentage", .vNum 0)],
        .vObj [("id", .vStr "b"), ("status", .vStr "running")]] :=
  store_roundtrip_preserves_records
    [.vObj [("id", .vStr "a"), ("percentage", .vNum 0)],
      .vObj [("id", .vStr "b"), ("status", .vStr "running")]]
    (by simp [stripUndefList, stripUndef, stripUndefObj])
